import Mathlib

/-! meetjestad/mjs_backend_design, `protocol.h`.

A shallow embedding of `src/protocol.h`: the tagged value `Shortcut`, the channel
registry `Device`, the sample builder `Packet`, and the calls they make on the
external `CborWriter`.

The writer and its byte sink are not part of the repository. The embedding records
the calls made on the writer, in order, and what is printed on `Serial`; a reference
reader over the recorded calls gives the item structure of a message.
-/

namespace Mjs

/-! ## Machine-level conventions -/

/-- A `const char *`: the bytes found in memory from the pointer onwards. The string it
denotes ends before the first zero byte. -/
abbrev CString := List Nat

/-- The bytes of a string literal followed by its terminating zero byte. -/
def cstr (s : String) : CString := s.toList.map Char.toNat ++ [0]

/-- The libc `strlen` / `strlen_P`: the number of bytes before the first zero byte. -/
def strlen_P (s : CString) : Nat := (s.takeWhile (fun b => b != 0)).length

/-- The libc `memcpy_P(dst, src, len)`: the destination buffer after the copy. -/
def memcpy_P (src : CString) (len : Nat) : List Nat := src.take len

/-! ## The external writer, as seen from `protocol.h` -/

/-- One call on a `CborWriter`. -/
inductive WriterCall where
  | writeArray (size : Nat)
  | writeMap (size : Nat)
  | writeInt (value : Int)
  | writeString (str : CString)
  | writeStringLen (data : List Nat) (size : Nat)
  | writeSpecial (special : Nat)
  deriving DecidableEq

/-- Everything the code can act on outside its own objects: the calls received by the
writer on the output (oldest first) and the lines printed on `Serial`. -/
structure World where
  cbor : List WriterCall
  serial : List String
  deriving DecidableEq

namespace World

def call (w : World) (c : WriterCall) : World := { w with cbor := w.cbor ++ [c] }

def writeArray (w : World) (size : Nat) : World := w.call (.writeArray size)
def writeMap (w : World) (size : Nat) : World := w.call (.writeMap size)
def writeInt (w : World) (value : Int) : World := w.call (.writeInt value)
def writeString (w : World) (str : CString) : World := w.call (.writeString str)
def writeStringLen (w : World) (data : List Nat) (size : Nat) : World :=
  w.call (.writeStringLen data size)
def writeSpecial (w : World) (special : Nat) : World := w.call (.writeSpecial special)

/-- The call `Serial.println(line)`. -/
def println (w : World) (line : String) : World := { w with serial := w.serial ++ [line] }

end World

/-! ## Enumerations and their wire constants -/

inductive ConfigKey where
  | ChannelId | Quantity | Unit | Sensor | ItemType
  deriving DecidableEq

inductive ItemType where
  | Node | Channel
  deriving DecidableEq

inductive Quantity where
  | Temperature | Humidity | Voltage
  deriving DecidableEq

inductive Unit where
  | DegreeCelsius | PercentRelativeHumidity | Volt
  deriving DecidableEq

inductive Sensor where
  | Si7021
  deriving DecidableEq

inductive DataKey where
  | ChannelId | Value
  deriving DecidableEq

/-- The cast `(long)e` of an enumeration value: its declared constant. -/
class WireEnum (E : Type) where
  toLong : E → Int

instance : WireEnum ConfigKey where
  toLong
    | .ChannelId => 1
    | .Quantity => 2
    | .Unit => 3
    | .Sensor => 4
    | .ItemType => 5

instance : WireEnum ItemType where
  toLong
    | .Node => 1
    | .Channel => 2

instance : WireEnum Quantity where
  toLong
    | .Temperature => 1
    | .Humidity => 2
    | .Voltage => 3

instance : WireEnum Unit where
  toLong
    | .DegreeCelsius => 1
    | .PercentRelativeHumidity => 2
    | .Volt => 3

instance : WireEnum Sensor where
  toLong
    | .Si7021 => 1

instance : WireEnum DataKey where
  toLong
    | .ChannelId => 1
    | .Value => 2

/-! ## Shortcut -/

/-- The class `Shortcut<Enum>`: the tag `type` together with the member of the union
that the tag selects. -/
inductive Shortcut (Enum : Type) where
  | ABSENT
  | FLASH_STRING (flash_str : CString)
  | RAM_STRING (ram_str : CString)
  | NUM (num : Enum)
  deriving DecidableEq

/-- The method `Shortcut<Enum>::to_cbor(CborWriter& w)`. -/
def Shortcut.to_cbor {Enum : Type} [WireEnum Enum] (s : Shortcut Enum) (w : World) : World :=
  match s with
  | .ABSENT => (w.writeSpecial 0).println "absent"
  | .FLASH_STRING flash_str =>
      let len := strlen_P flash_str
      let str := memcpy_P flash_str len
      (w.writeStringLen str len).println "flash"
  | .RAM_STRING ram_str => (w.writeString ram_str).println "ram"
  | .NUM num => (w.writeInt (WireEnum.toLong num)).println "num"

/-! ## Variable -/

/-- The class `Variable`. The member `next` is never read or written and is left out. -/
structure Variable where
  index : Nat
  quantity : Shortcut Quantity
  unit : Shortcut Unit
  sensor : Shortcut Sensor
  deriving DecidableEq

namespace Variable

def setQuantity (v : Variable) (quantity : Shortcut Quantity) : Variable :=
  { v with quantity := quantity }

def setUnit (v : Variable) (unit : Shortcut Unit) : Variable :=
  { v with unit := unit }

def setSensor (v : Variable) (sensor : Shortcut Sensor) : Variable :=
  { v with sensor := sensor }

/-- The constructor `Variable()`: the three `Shortcut` members are default-constructed
(`ABSENT`); `index` is not initialised and holds whatever byte `junk` was there. -/
def new (junk : Nat) : Variable :=
  { index := junk % 256, quantity := .ABSENT, unit := .ABSENT, sensor := .ABSENT }

end Variable

/-! ## Outcomes -/

/-- The errors that the specification asks `registerVariable` and `addValue` to report. -/
inductive Error where
  | CapacityExceeded
  | Overflow
  deriving DecidableEq

/-- What a call does: it returns, it reports an error, it accesses an array outside
its bounds (undefined behaviour), or it never returns. -/
inductive Outcome (α : Type) where
  | ok (a : α)
  | error (e : Error)
  | undefined
  | diverges
  deriving DecidableEq

/-! ## Device -/

/-- The class `Device<MaxVariables>`: the 8-bit counter `num_variables` and the array
`variables`, which has `MaxVariables` elements. -/
structure Device (MaxVariables : Nat) where
  num_variables : Nat
  vars : List Variable
  deriving DecidableEq

namespace Device

variable {MaxVariables : Nat}

/-- The values of the class: the array has its declared size and the counter fits
in 8 bits. -/
def WellFormed (d : Device MaxVariables) : Prop :=
  d.vars.length = MaxVariables ∧ d.num_variables < 256

instance (d : Device MaxVariables) : Decidable d.WellFormed := by
  unfold WellFormed; infer_instance

/-- A newly constructed `Device`: `num_variables = 0` and `MaxVariables` constructed
Variables, the uninitialised `index` of slot `j` holding `junk j`. -/
def fresh (MaxVariables : Nat) (junk : Nat → Nat) : Device MaxVariables :=
  { num_variables := 0
    vars := (List.range MaxVariables).map (fun j => Variable.new (junk j)) }

/-- The method `Device::addVariable()`. The result holds the Device afterwards and the
slot of `variables` that the returned reference designates. -/
def addVariable (d : Device MaxVariables) : Outcome (Device MaxVariables × Nat) :=
  match d.vars[d.num_variables]? with
  | none => .undefined
  | some v =>
      -- this->variables[this->num_variables].index = num_variables;
      let vars := d.vars.set d.num_variables { v with index := d.num_variables }
      -- return this->variables[this->num_variables++];
      .ok ({ num_variables := (d.num_variables + 1) % 256, vars := vars },
           d.num_variables)

/-- A call through a reference returned by `addVariable`: `f` is applied to the Variable
in slot `slot` of `variables`. -/
def update (d : Device MaxVariables) (slot : Nat) (f : Variable → Variable) :
    Outcome (Device MaxVariables) :=
  match d.vars[slot]? with
  | none => .undefined
  | some v => .ok { d with vars := d.vars.set slot (f v) }

/-- The body of the loop of `renderConfig` for the counter value `i`. -/
def renderChannel (i : Nat) (var : Variable) (w : World) : World :=
  let w := w.writeMap 5
  let w := w.writeInt (WireEnum.toLong ConfigKey.ItemType)
  let w := w.writeInt (WireEnum.toLong ItemType.Channel)
  let w := w.writeInt (WireEnum.toLong ConfigKey.ChannelId)
  let w := w.writeInt i
  let w := w.writeInt (WireEnum.toLong ConfigKey.Quantity)
  let w := var.quantity.to_cbor w
  let w := w.writeInt (WireEnum.toLong ConfigKey.Unit)
  let w := var.unit.to_cbor w
  let w := w.writeInt (WireEnum.toLong ConfigKey.Sensor)
  var.sensor.to_cbor w

/-- The loop `for (uint8_t i = 0; i < this->num_variables; ++i)` of `renderConfig`,
entered with counter `i`. Each unit of fuel pays for one test of the loop condition. -/
def renderLoop (d : Device MaxVariables) : Nat → Nat → World → Outcome World
  | 0, _, _ => .diverges
  | fuel + 1, i, w =>
      if i < d.num_variables then
        match d.vars[i]? with
        | none => .undefined
        | some var => renderLoop d fuel ((i + 1) % 256) (renderChannel i var w)
      else .ok w

/-- The method `Device::renderConfig(CborOutput& out)`. The 8-bit counter of the loop
takes at most 256 values, so the loop condition is tested at most 256 times unless the
loop never ends. -/
def renderConfig (d : Device MaxVariables) (out : World) : Outcome World :=
  let w := out
  let w := w.writeArray (d.num_variables + 1)
  let w := w.writeMap 2
  let w := w.writeInt (WireEnum.toLong ConfigKey.ItemType)
  let w := w.writeInt (WireEnum.toLong ItemType.Node)
  let w := w.writeString (cstr "experimental")
  let w := w.writeInt 1
  renderLoop d 256 0 w

end Device

/-! ## Packet -/

/-- The class `Packet<MaxVariables>`: the output it was constructed on, with the calls
its writer has made so far. -/
structure Packet (MaxVariables : Nat) where
  out : World
  deriving DecidableEq

namespace Packet

variable {MaxVariables : Nat}

/-- The constructor `Packet::Packet(CborOutput& out)`. -/
def new (MaxVariables : Nat) (out : World) : Packet MaxVariables :=
  { out := out.writeArray MaxVariables }

/-- The method `Packet::addValue(const Variable& variable, int32_t value)`. -/
def addValue (p : Mjs.Packet MaxVariables) (var : Variable) (value : Int) :
    Mjs.Packet MaxVariables :=
  let w := p.out
  let w := w.writeMap 2
  let w := w.writeInt (WireEnum.toLong DataKey.ChannelId)
  let w := w.writeInt var.index
  let w := w.writeInt (WireEnum.toLong DataKey.Value)
  let w := w.writeInt value
  { out := w }

end Packet

/-- The calls `addValue(var_1, val_1)`, ..., `addValue(var_m, val_m)` made in this order. -/
def Packet.addValues {MaxVariables : Nat} (p : Packet MaxVariables) (samples : List (Variable × Int)) :
    Packet MaxVariables :=
  samples.foldl (fun q s => q.addValue s.1 s.2) p

/-! ## Programs that configure a Device -/

/-- One statement of a configuration program. A setter names the Variable it acts on by
`ref`: the reference returned by the `ref`-th call of `addVariable` (counted from 0). -/
inductive DeviceOp where
  | addVariable
  | setQuantity (ref : Nat) (quantity : Shortcut Quantity)
  | setUnit (ref : Nat) (unit : Shortcut Unit)
  | setSensor (ref : Nat) (sensor : Shortcut Sensor)
  deriving DecidableEq

/-- The state of a configuration program: the Device and the slots designated by the
references that `addVariable` has returned so far, oldest first. -/
structure Config (MaxVariables : Nat) where
  device : Device MaxVariables
  refs : List Nat
  deriving DecidableEq

/-- One statement. A setter through a reference that no call has returned yet is not a
program, and is given the outcome `undefined`. -/
def Config.step {MaxVariables : Nat} (c : Config MaxVariables) :
    DeviceOp → Outcome (Config MaxVariables)
  | .addVariable =>
      match c.device.addVariable with
      | .ok (d, slot) => .ok { device := d, refs := c.refs ++ [slot] }
      | .error e => .error e
      | .undefined => .undefined
      | .diverges => .diverges
  | .setQuantity ref quantity =>
      match c.refs[ref]? with
      | none => .undefined
      | some slot =>
          match c.device.update slot (fun v => v.setQuantity quantity) with
          | .ok d => .ok { c with device := d }
          | .error e => .error e
          | .undefined => .undefined
          | .diverges => .diverges
  | .setUnit ref unit =>
      match c.refs[ref]? with
      | none => .undefined
      | some slot =>
          match c.device.update slot (fun v => v.setUnit unit) with
          | .ok d => .ok { c with device := d }
          | .error e => .error e
          | .undefined => .undefined
          | .diverges => .diverges
  | .setSensor ref sensor =>
      match c.refs[ref]? with
      | none => .undefined
      | some slot =>
          match c.device.update slot (fun v => v.setSensor sensor) with
          | .ok d => .ok { c with device := d }
          | .error e => .error e
          | .undefined => .undefined
          | .diverges => .diverges

/-- A configuration program, statement by statement; it stops at the first statement
that does not return. -/
def Config.run {MaxVariables : Nat} (c : Config MaxVariables) :
    List DeviceOp → Outcome (Config MaxVariables)
  | [] => .ok c
  | op :: ops =>
      match c.step op with
      | .ok c1 => Config.run c1 ops
      | .error e => .error e
      | .undefined => .undefined
      | .diverges => .diverges

/-- The program starts on a newly constructed Device. -/
def Config.start (MaxVariables : Nat) (junk : Nat → Nat) : Config MaxVariables :=
  { device := Device.fresh MaxVariables junk, refs := [] }

/-- The number of `addVariable` calls of a program. -/
def countAdds (ops : List DeviceOp) : Nat :=
  (ops.filter (fun op => op == DeviceOp.addVariable)).length

/-- What the specification asks of `registerVariable` (section 4.3): the next free slot
gets `index = num_variables` and the count goes up by one; when `num_variables` equals
the capacity the call fails with `CapacityExceeded` and the Device stays as it is. -/
def spec_registerVariable {MaxVariables : Nat} (d : Device MaxVariables) :
    Outcome (Device MaxVariables × Nat) :=
  if d.num_variables = MaxVariables then .error .CapacityExceeded
  else
    match d.vars[d.num_variables]? with
    | none => .undefined
    | some v =>
        .ok ({ num_variables := d.num_variables + 1,
               vars := d.vars.set d.num_variables { v with index := d.num_variables } },
             d.num_variables)

/-! ## A reference reader

The reader takes the calls of a message one by one and rebuilds the item they describe.
A container is complete when as many items as its header declared have followed it. -/

/-- A data item. -/
inductive Item where
  | int (value : Int)
  | text (bytes : List Nat)
  | special (code : Nat)
  | array (items : List Item)
  | map (entries : List (Item × Item))

inductive Kind where
  | array | map
  deriving DecidableEq

/-- A container whose header has been read: the items still to come (at least one) and
the items read so far, newest first. -/
structure Frame where
  kind : Kind
  remaining : Nat
  acc : List Item

/-- Keys and values, alternating, as the entries of a map. -/
def pairUp : List Item → List (Item × Item)
  | k :: v :: rest => (k, v) :: pairUp rest
  | _ => []

/-- The container made of `items` (oldest first). -/
def Kind.close : Kind → List Item → Item
  | .array, items => .array items
  | .map, items => .map (pairUp items)

/-- The state of the reader: inside the containers of `stack` (innermost first, none
before the first call), finished with one complete item, or failed. -/
inductive Reader where
  | reading (stack : List Frame)
  | done (item : Item)
  | failed

/-- A complete item is handed to the innermost open container, which is closed and
handed on in turn when this was its last item. -/
def deliver (item : Item) : List Frame → Reader
  | [] => .done item
  | f :: fs =>
      if f.remaining ≤ 1 then deliver (f.kind.close (item :: f.acc).reverse) fs
      else .reading ({ f with remaining := f.remaining - 1, acc := item :: f.acc } :: fs)

/-- A container header declaring `count` items. -/
def openContainer (kind : Kind) (count : Nat) (stack : List Frame) : Reader :=
  if count = 0 then deliver (kind.close []) stack
  else .reading ({ kind := kind, remaining := count, acc := [] } :: stack)

/-- The reader takes one call. A call after the item is complete is a failure. -/
def Reader.step : Reader → WriterCall → Reader
  | .reading stack, .writeInt value => deliver (.int value) stack
  | .reading stack, .writeString str => deliver (.text (str.takeWhile (fun b => b != 0))) stack
  | .reading stack, .writeStringLen data size => deliver (.text (data.take size)) stack
  | .reading stack, .writeSpecial special => deliver (.special special) stack
  | .reading stack, .writeArray size => openContainer .array size stack
  | .reading stack, .writeMap size => openContainer .map (2 * size) stack
  | _, _ => .failed

/-- The item that a sequence of calls describes, when the calls are exactly one complete
item: nothing missing and nothing left over. -/
def readMessage (calls : List WriterCall) : Option Item :=
  match calls.foldl Reader.step (.reading []) with
  | .done item => some item
  | _ => none

/-! ## The calls and items of a message, in closed form -/

/-- The calls that `to_cbor` makes on a writer that has received none. -/
def Shortcut.encoding {Enum : Type} [WireEnum Enum] (s : Shortcut Enum) : List WriterCall :=
  (s.to_cbor { cbor := [], serial := [] }).cbor

/-- The meaning of a `Shortcut` as an item: the string of a text variant, the constant
of a numeric variant, the special value 0 when absent. -/
def Shortcut.item {Enum : Type} [WireEnum Enum] : Shortcut Enum → Item
  | .ABSENT => .special 0
  | .FLASH_STRING flash_str => .text (flash_str.takeWhile (fun b => b != 0))
  | .RAM_STRING ram_str => .text (ram_str.takeWhile (fun b => b != 0))
  | .NUM num => .int (WireEnum.toLong num)

/-- The calls of the map of channel `i`. -/
def channelCalls (i : Nat) (v : Variable) : List WriterCall :=
  [.writeMap 5, .writeInt 5, .writeInt 2, .writeInt 1, .writeInt i, .writeInt 2]
    ++ v.quantity.encoding ++ [.writeInt 3] ++ v.unit.encoding ++ [.writeInt 4]
    ++ v.sensor.encoding

/-- The map of channel `i` as an item. -/
def channelItem (i : Nat) (v : Variable) : Item :=
  .map [(.int 5, .int 2), (.int 1, .int i), (.int 2, v.quantity.item),
        (.int 3, v.unit.item), (.int 4, v.sensor.item)]

/-- The calls of the header map. -/
def headerCalls : List WriterCall :=
  [.writeMap 2, .writeInt 5, .writeInt 1, .writeString (cstr "experimental"), .writeInt 1]

/-- The header map as an item. -/
def headerItem : Item :=
  .map [(.int 5, .int 1),
        (.text [101, 120, 112, 101, 114, 105, 109, 101, 110, 116, 97, 108], .int 1)]

/-- The registered Variables of a Device, each with its place in `variables`. -/
def Device.registered {MaxVariables : Nat} (d : Device MaxVariables) : List (Nat × Variable) :=
  (d.vars.take d.num_variables).enum

/-- The calls of the map that `addValue` writes for one sample. -/
def sampleCalls (s : Variable × Int) : List WriterCall :=
  [.writeMap 2, .writeInt 1, .writeInt s.1.index, .writeInt 2, .writeInt s.2]

/-- The map of one sample as an item. -/
def sampleItem (s : Variable × Int) : Item :=
  .map [(.int 1, .int s.1.index), (.int 2, .int s.2)]

/-- Every setter of the program goes through a reference that an earlier call of
`addVariable` has returned; `k` references exist before the program starts. -/
def wellScoped : Nat → List DeviceOp → Bool
  | _, [] => true
  | k, .addVariable :: ops => wellScoped (k + 1) ops
  | k, .setQuantity ref _ :: ops => decide (ref < k) && wellScoped k ops
  | k, .setUnit ref _ :: ops => decide (ref < k) && wellScoped k ops
  | k, .setSensor ref _ :: ops => decide (ref < k) && wellScoped k ops

/-! ## The scenarios of the specification -/

/-- Scenario A, channel 0. -/
def channel0 : Variable :=
  { index := 0, quantity := .NUM .Temperature, unit := .NUM .DegreeCelsius,
    sensor := .NUM .Si7021 }

/-- Scenario A, channel 1. -/
def channel1 : Variable :=
  { index := 1, quantity := .NUM .Humidity, unit := .NUM .PercentRelativeHumidity,
    sensor := .NUM .Si7021 }

/-- Scenario A: the Device with the two channels. -/
def scenarioA : Device 2 := { num_variables := 2, vars := [channel0, channel1] }

/-- The program that builds the Device of scenario A. -/
def scenarioAProgram : List DeviceOp :=
  [.addVariable, .setQuantity 0 (.NUM .Temperature), .setUnit 0 (.NUM .DegreeCelsius),
   .setSensor 0 (.NUM .Si7021),
   .addVariable, .setQuantity 1 (.NUM .Humidity), .setUnit 1 (.NUM .PercentRelativeHumidity),
   .setSensor 1 (.NUM .Si7021)]

/-- An output on which nothing has been written. -/
def World.empty : World := { cbor := [], serial := [] }

/-- The state of a configuration program after `k` calls of `addVariable`, as the data
model of the specification describes it: the counter holds `k`, the `j`-th call has
returned slot `j`, and the Variable in each of the first `k` slots holds its place in
`index`. -/
def Config.Registered {MaxVariables : Nat} (c : Config MaxVariables) (k : Nat) : Prop :=
  c.device.num_variables = k ∧ c.refs = List.range k ∧
  c.device.vars.length = MaxVariables ∧
  ∀ j < k, ∃ v, c.device.vars[j]? = some v ∧ v.index = j

/-- The value a call returns, when it returns. -/
def Outcome.toOption {α : Type} : Outcome α → Option α
  | .ok a => some a
  | _ => none

/-! ## The bytes of the external writer -/

/-- Modelled from the spec: the item header that the external writer puts on the wire
(the writer is not part of the repository; section 6 refers to the CBOR format for
item headers). The major type takes the top three bits of the first byte; the
argument `n` follows in the shortest of the forms of 0, 1, 2, 4 or 8 bytes, big-endian. -/
def cborHead (major n : Nat) : List Nat :=
  if n < 24 then [major * 32 + n]
  else if n < 256 then [major * 32 + 24, n]
  else if n < 65536 then [major * 32 + 25, n / 256, n % 256]
  else if n < 4294967296 then
    [major * 32 + 26, n / 16777216, n / 65536 % 256, n / 256 % 256, n % 256]
  else
    [major * 32 + 27, n / 72057594037927936 % 256, n / 281474976710656 % 256,
      n / 1099511627776 % 256, n / 4294967296 % 256,
      n / 16777216 % 256, n / 65536 % 256, n / 256 % 256, n % 256]

/-- Modelled from the spec: the bytes of `writeInt(value)` on the wire (section 4.4:
the signed-integer wire encoding, negative values in the negative-integer
representation). A value that is not negative is an item of major type 0 with the
value as argument; a negative value is an item of major type 1 with argument
`-1 - value`. -/
def writeIntBytes (value : Int) : List Nat :=
  if 0 ≤ value then cborHead 0 value.toNat else cborHead 1 (-1 - value).toNat

/-- Modelled from the spec: the bytes of one writer call on the wire. Arrays are items
of major type 4, maps of major type 5, text strings of major type 3 (the length, then
the bytes of the string), special values of major type 7. -/
def WriterCall.bytes : WriterCall → List Nat
  | .writeArray size => cborHead 4 size
  | .writeMap size => cborHead 5 size
  | .writeInt value => writeIntBytes value
  | .writeString str =>
      cborHead 3 (strlen_P str) ++ str.takeWhile (fun b => b != 0)
  | .writeStringLen data size => cborHead 3 size ++ data.take size
  | .writeSpecial special => cborHead 7 special

/-- Modelled from the spec: a reference decoder reads the argument of an item header
whose first byte carries `info` in its low five bits. -/
def readArgument (info : Nat) (rest : List Nat) : Option (Nat × List Nat) :=
  if info < 24 then some (info, rest)
  else if info = 24 then
    match rest with
    | a :: r => some (a, r)
    | _ => none
  else if info = 25 then
    match rest with
    | a :: b :: r => some (a * 256 + b, r)
    | _ => none
  else if info = 26 then
    match rest with
    | a :: b :: c :: d :: r => some (((a * 256 + b) * 256 + c) * 256 + d, r)
    | _ => none
  else if info = 27 then
    match rest with
    | a :: b :: c :: d :: e :: f :: g :: h :: r =>
        some (((((((a * 256 + b) * 256 + c) * 256 + d) * 256 + e) * 256 + f) * 256 + g) * 256
          + h, r)
    | _ => none
  else none

/-- Modelled from the spec: a reference decoder reads one integer item from the wire and
returns the bytes that follow it. -/
def readIntBytes : List Nat → Option (Int × List Nat)
  | [] => none
  | b :: rest =>
      match readArgument (b % 32) rest with
      | none => none
      | some (n, r) =>
          if b / 32 = 0 then some ((n : Int), r)
          else if b / 32 = 1 then some (-1 - (n : Int), r)
          else none

/-! ## The meaning of a Shortcut -/

/-- What a `Shortcut` that is not absent stands for: a string or an enumeration value. -/
inductive Meaning (Enum : Type) where
  | text (bytes : List Nat)
  | code (num : Enum)
  deriving DecidableEq

/-- The meaning of a `Shortcut`; an absent one has none. -/
def Shortcut.meaning {Enum : Type} : Shortcut Enum → Option (Meaning Enum)
  | .ABSENT => none
  | .FLASH_STRING flash_str => some (.text (flash_str.takeWhile (fun b => b != 0)))
  | .RAM_STRING ram_str => some (.text (ram_str.takeWhile (fun b => b != 0)))
  | .NUM num => some (.code num)

/-- The enumeration value that has a given wire constant. -/
class WireDecode (Enum : Type) where
  ofLong : Int → Option Enum

instance : WireDecode Quantity where
  ofLong n :=
    if n = 1 then some .Temperature
    else if n = 2 then some .Humidity
    else if n = 3 then some .Voltage
    else none

instance : WireDecode Unit where
  ofLong n :=
    if n = 1 then some .DegreeCelsius
    else if n = 2 then some .PercentRelativeHumidity
    else if n = 3 then some .Volt
    else none

instance : WireDecode Sensor where
  ofLong n := if n = 1 then some .Si7021 else none

/-- The reference reader of a `Shortcut`: a text item is a string, an integer item is
the enumeration value with that constant. -/
def decodeShortcut {Enum : Type} [WireDecode Enum] : Item → Option (Meaning Enum)
  | .text bytes => some (.text bytes)
  | .int value => (WireDecode.ofLong value).map .code
  | _ => none

/-- Reading the item written by `to_cbor` gives back the meaning of every `Shortcut` of
the enumeration that is not absent, and two such values with different meanings are
written as different items. -/
def RoundTrips (Enum : Type) [WireEnum Enum] [WireDecode Enum] : Prop :=
  (∀ x : Shortcut Enum, x ≠ .ABSENT →
    x.meaning ≠ none ∧ (readMessage x.encoding).bind decodeShortcut = x.meaning) ∧
  (∀ x y : Shortcut Enum, x ≠ .ABSENT → y ≠ .ABSENT → x.meaning ≠ y.meaning →
    readMessage x.encoding ≠ readMessage y.encoding)

/-! ## Fields of a Variable and entries of a map -/

/-- The three `Shortcut` members of a Variable. -/
inductive Field where
  | quantity | unit | sensor
  deriving DecidableEq

/-- The key under which `renderConfig` writes a member. -/
def Field.key : Field → Int
  | .quantity => WireEnum.toLong ConfigKey.Quantity
  | .unit => WireEnum.toLong ConfigKey.Unit
  | .sensor => WireEnum.toLong ConfigKey.Sensor

/-- The member is `ABSENT`. -/
def Variable.absentAt (v : Variable) : Field → Prop
  | .quantity => v.quantity = .ABSENT
  | .unit => v.unit = .ABSENT
  | .sensor => v.sensor = .ABSENT

/-- The reference through which a statement sets the member, when it sets it. -/
def DeviceOp.setsField : DeviceOp → Field → Option Nat
  | .setQuantity ref _, .quantity => some ref
  | .setUnit ref _, .unit => some ref
  | .setSensor ref _, .sensor => some ref
  | _, _ => none

/-- The value of the first entry of a map whose key is the integer `key`. -/
def Item.valueAt (key : Int) : Item → Option Item
  | .map entries =>
      (entries.find? (fun kv =>
        match kv.1 with
        | .int k => decide (k = key)
        | _ => false)).map Prod.snd
  | _ => none

/-- The integer value of the first entry of a map whose key is the integer `key`. -/
def Item.intAt (key : Int) (item : Item) : Option Int :=
  match item.valueAt key with
  | some (.int value) => some value
  | _ => none

/-- The channel ids of a message: the values of the key 1 in the maps of its array. -/
def channelIds : Item → List Int
  | .array items => items.filterMap (Item.intAt 1)
  | _ => []

/-- One sample per registered Variable, in the order of registration, the Variable in
place `j` with the value `value j`. -/
def Device.samples {MaxVariables : Nat} (d : Device MaxVariables) (value : Nat → Int) :
    List (Variable × Int) :=
  d.registered.map (fun jv => (jv.2, value jv.1))


/-! ## Lemmas on the writer calls -/

theorem take_strlen_P (s : CString) :
    s.take (strlen_P s) = s.takeWhile (fun b => b != 0) := by
  unfold strlen_P
  induction s with
  | nil => rfl
  | cons b bs ih =>
      by_cases hb : (b != 0) = true
      · simp [List.takeWhile_cons, hb, ih]
      · simp [List.takeWhile_cons, hb]

theorem to_cbor_cbor {Enum : Type} [WireEnum Enum] (s : Shortcut Enum) (w : World) :
    (s.to_cbor w).cbor = w.cbor ++ s.encoding := by
  cases s <;> rfl

theorem encoding_length {Enum : Type} [WireEnum Enum] (s : Shortcut Enum) :
    s.encoding.length = 1 := by
  cases s <;> rfl

theorem renderChannel_cbor (i : Nat) (v : Variable) (w : World) :
    (Device.renderChannel i v w).cbor = w.cbor ++ channelCalls i v := by
  simp [Device.renderChannel, to_cbor_cbor, channelCalls, World.writeInt, World.writeMap,
    World.call, WireEnum.toLong]

theorem renderLoop_ok {MaxVariables : Nat} (d : Device MaxVariables)
    (hnv : d.num_variables < 256) (hlen : d.num_variables ≤ d.vars.length) :
    ∀ (fuel i : Nat) (w : World), i ≤ d.num_variables → d.num_variables - i < fuel →
      ∃ w1, d.renderLoop fuel i w = .ok w1 ∧
        w1.cbor = w.cbor ++
          (((d.vars.take d.num_variables).drop i).enumFrom i).flatMap
            (fun jv => channelCalls jv.1 jv.2) := by
  intro fuel
  induction fuel with
  | zero => intro i w _ h; omega
  | succ fuel ih =>
      intro i w hi hfuel
      by_cases hlt : i < d.num_variables
      · have hil : i < d.vars.length := by omega
        have hit : i < (d.vars.take d.num_variables).length := by
          simp [List.length_take]; omega
        have hmod : (i + 1) % 256 = i + 1 := by omega
        obtain ⟨w1, hw1, hc⟩ :=
          ih (i + 1) (Device.renderChannel i d.vars[i] w) (by omega) (by omega)
        refine ⟨w1, ?_, ?_⟩
        · simp [Device.renderLoop, hlt, List.getElem?_eq_getElem hil, hmod, hw1]
        · rw [hc, renderChannel_cbor, List.drop_eq_getElem_cons hit, List.enumFrom_cons,
            List.flatMap_cons, List.getElem_take, List.append_assoc]
      · have hi2 : i = d.num_variables := by omega
        refine ⟨w, ?_, ?_⟩
        · simp [Device.renderLoop, hlt]
        · have : (d.vars.take d.num_variables).drop i = [] := by
            apply List.drop_eq_nil_of_le
            simp [List.length_take]; omega
          simp [this]

/-- The calls of a config message. -/
theorem renderConfig_ok {MaxVariables : Nat} (d : Device MaxVariables) (out : World)
    (hnv : d.num_variables < 256) (hlen : d.num_variables ≤ d.vars.length) :
    ∃ w1, d.renderConfig out = .ok w1 ∧
      w1.cbor = out.cbor ++ (.writeArray (d.num_variables + 1) :: headerCalls ++
        d.registered.flatMap (fun jv => channelCalls jv.1 jv.2)) := by
  obtain ⟨w1, hw1, hc⟩ := renderLoop_ok d hnv hlen 256 0
    ((((((out.writeArray (d.num_variables + 1)).writeMap 2).writeInt
      (WireEnum.toLong ConfigKey.ItemType)).writeInt (WireEnum.toLong ItemType.Node)).writeString
      (cstr "experimental")).writeInt 1) (by omega) (by omega)
  refine ⟨w1, hw1, ?_⟩
  rw [hc]
  simp [World.writeInt, World.writeMap, World.writeArray, World.writeString, World.call,
    WireEnum.toLong, headerCalls, Device.registered, List.enum]

/-! ## Lemmas on the reference reader -/

theorem step_encoding {Enum : Type} [WireEnum Enum] (s : Shortcut Enum) (stack : List Frame)
    (rest : List WriterCall) :
    (s.encoding ++ rest).foldl Reader.step (.reading stack) =
      rest.foldl Reader.step (deliver s.item stack) := by
  cases s with
  | ABSENT => rfl
  | FLASH_STRING p =>
      show rest.foldl Reader.step
          (deliver (.text ((memcpy_P p (strlen_P p)).take (strlen_P p))) stack) = _
      have h : (memcpy_P p (strlen_P p)).take (strlen_P p) = p.takeWhile (fun b => b != 0) := by
        unfold memcpy_P
        rw [List.take_take, Nat.min_self, take_strlen_P]
      rw [h]; rfl
  | RAM_STRING p => rfl
  | NUM n => rfl

theorem read_encoding {Enum : Type} [WireEnum Enum] (s : Shortcut Enum) :
    readMessage s.encoding = some s.item := by
  have h := step_encoding s [] []
  simp only [List.append_nil, List.foldl_nil] at h
  simp [readMessage, h, deliver]

theorem foldl_step_int (v : Int) (rest : List WriterCall) (stack : List Frame) :
    (WriterCall.writeInt v :: rest).foldl Reader.step (.reading stack) =
      rest.foldl Reader.step (deliver (.int v) stack) := rfl

theorem foldl_step_string (s : CString) (rest : List WriterCall) (stack : List Frame) :
    (WriterCall.writeString s :: rest).foldl Reader.step (.reading stack) =
      rest.foldl Reader.step (deliver (.text (s.takeWhile (fun b => b != 0))) stack) := rfl

theorem foldl_step_map (n : Nat) (rest : List WriterCall) (stack : List Frame) :
    (WriterCall.writeMap (n + 1) :: rest).foldl Reader.step (.reading stack) =
      rest.foldl Reader.step
        (.reading ({ kind := .map, remaining := 2 * (n + 1), acc := [] } :: stack)) := by
  simp [Reader.step, openContainer]

theorem foldl_step_array (n : Nat) (rest : List WriterCall) (stack : List Frame) :
    (WriterCall.writeArray (n + 1) :: rest).foldl Reader.step (.reading stack) =
      rest.foldl Reader.step
        (.reading ({ kind := .array, remaining := n + 1, acc := [] } :: stack)) := by
  simp [Reader.step, openContainer]

theorem deliver_more (item : Item) (k : Kind) (r : Nat) (acc : List Item) (fs : List Frame) :
    deliver item ({ kind := k, remaining := r + 2, acc := acc } :: fs) =
      .reading ({ kind := k, remaining := r + 1, acc := item :: acc } :: fs) := by
  simp [deliver]

theorem deliver_last (item : Item) (k : Kind) (acc : List Item) (fs : List Frame) :
    deliver item ({ kind := k, remaining := 1, acc := acc } :: fs) =
      deliver (k.close (item :: acc).reverse) fs := by
  simp [deliver]

theorem read_channel (i : Nat) (v : Variable) (f : Frame) (fs : List Frame)
    (rest : List WriterCall) :
    (channelCalls i v ++ rest).foldl Reader.step (.reading (f :: fs)) =
      rest.foldl Reader.step (deliver (channelItem i v) (f :: fs)) := by
  simp only [channelCalls, List.append_assoc, List.cons_append, List.nil_append]
  rw [foldl_step_map 4]
  simp only [foldl_step_int, Nat.reduceMul, Nat.reduceAdd, deliver_more _ _ 8, deliver_more _ _ 7,
    deliver_more _ _ 6, deliver_more _ _ 5, deliver_more _ _ 4, deliver_more _ _ 3,
    deliver_more _ _ 2, deliver_more _ _ 1, deliver_more _ _ 0, deliver_last, step_encoding]
  rfl

theorem read_sample (s : Variable × Int) (f : Frame) (fs : List Frame)
    (rest : List WriterCall) :
    (sampleCalls s ++ rest).foldl Reader.step (.reading (f :: fs)) =
      rest.foldl Reader.step (deliver (sampleItem s) (f :: fs)) := by
  simp only [sampleCalls, List.cons_append, List.nil_append]
  rw [foldl_step_map 1]
  simp only [foldl_step_int, Nat.reduceMul, Nat.reduceAdd, deliver_more _ _ 2,
    deliver_more _ _ 1, deliver_more _ _ 0, deliver_last]
  rfl

/-- An open array that still expects as many items as `xs` has, read to its end. -/
theorem read_items {α : Type} (enc : α → List WriterCall) (item : α → Item)
    (henc : ∀ a f fs rest, (enc a ++ rest).foldl Reader.step (.reading (f :: fs)) =
      rest.foldl Reader.step (deliver (item a) (f :: fs))) :
    ∀ (xs : List α) (acc : List Item), xs ≠ [] →
      (xs.flatMap enc).foldl Reader.step
          (.reading [{ kind := .array, remaining := xs.length, acc := acc }]) =
        .done (.array (acc.reverse ++ xs.map item)) := by
  intro xs
  induction xs with
  | nil => intro acc h; exact absurd rfl h
  | cons x xs ih =>
      intro acc _
      rw [List.flatMap_cons, henc]
      cases xs with
      | nil => simp [deliver, Kind.close]
      | cons y ys =>
          have h2 := ih (item x :: acc) (by simp)
          rw [List.length_cons, List.length_cons, deliver_more, ← List.length_cons, h2]
          simp

/-- A whole array message: the header declaring as many items as `xs` has, then the
items. -/
theorem read_array {α : Type} (enc : α → List WriterCall) (item : α → Item)
    (henc : ∀ a f fs rest, (enc a ++ rest).foldl Reader.step (.reading (f :: fs)) =
      rest.foldl Reader.step (deliver (item a) (f :: fs)))
    (xs : List α) :
    readMessage (.writeArray xs.length :: xs.flatMap enc) = some (.array (xs.map item)) := by
  cases xs with
  | nil => simp [readMessage, Reader.step, openContainer, deliver, Kind.close]
  | cons x xs =>
      have h := read_items enc item henc (x :: xs) [] (by simp)
      unfold readMessage
      rw [List.length_cons, foldl_step_array, ← List.length_cons, h]
      simp

theorem read_config {MaxVariables : Nat} (d : Device MaxVariables)
    (hlen : d.num_variables ≤ d.vars.length) :
    readMessage (.writeArray (d.num_variables + 1) :: headerCalls ++
        d.registered.flatMap (fun jv => channelCalls jv.1 jv.2)) =
      some (.array (headerItem :: d.registered.map (fun jv => channelItem jv.1 jv.2))) := by
  have hreg : d.registered.length = d.num_variables := by
    simp [Device.registered, List.enum, List.length_take]; omega
  rw [← hreg]
  generalize d.registered = xs
  have hhdr : ∀ (r : Nat) (rest : List WriterCall),
      (.writeArray (r + 1) :: headerCalls ++ rest).foldl Reader.step (.reading []) =
        rest.foldl Reader.step
          (deliver headerItem [{ kind := .array, remaining := r + 1, acc := [] }]) := by
    intro r rest
    rw [List.cons_append, foldl_step_array]
    simp only [headerCalls, List.cons_append, List.nil_append]
    rw [foldl_step_map 1]
    simp only [foldl_step_int, foldl_step_string, Nat.reduceMul, Nat.reduceAdd,
      deliver_more _ _ 2, deliver_more _ _ 1, deliver_more _ _ 0, deliver_last]
    rfl
  unfold readMessage
  rw [hhdr]
  cases xs with
  | nil => simp [deliver, Kind.close]
  | cons x xs =>
      have h := read_items (fun jv : Nat × Variable => channelCalls jv.1 jv.2)
        (fun jv => channelItem jv.1 jv.2) (fun a f fs rest => read_channel a.1 a.2 f fs rest)
        (x :: xs) [headerItem] (by simp)
      rw [List.length_cons, deliver_more, ← List.length_cons, h]
      simp

/-! ## Lemmas on Packet -/

theorem addValue_cbor {MaxVariables : Nat} (p : Packet MaxVariables) (v : Variable) (x : Int) :
    (p.addValue v x).out.cbor = p.out.cbor ++ sampleCalls (v, x) := by
  simp [Packet.addValue, sampleCalls, World.writeInt, World.writeMap, World.call,
    WireEnum.toLong]

theorem addValues_cbor {MaxVariables : Nat} (samples : List (Variable × Int)) :
    ∀ p : Packet MaxVariables,
      (p.addValues samples).out.cbor = p.out.cbor ++ samples.flatMap sampleCalls := by
  induction samples with
  | nil => intro p; simp [Packet.addValues]
  | cons s samples ih =>
      intro p
      have h := ih (p.addValue s.1 s.2)
      simp only [Packet.addValues, List.foldl_cons] at h ⊢
      rw [h, addValue_cbor, List.flatMap_cons, List.append_assoc]

theorem packet_cbor (MaxVariables : Nat) (out : World) (samples : List (Variable × Int)) :
    ((Packet.new MaxVariables out).addValues samples).out.cbor =
      out.cbor ++ .writeArray MaxVariables :: samples.flatMap sampleCalls := by
  rw [addValues_cbor]
  simp [Packet.new, World.writeArray, World.call]

/-! ## Lemmas on configuration programs -/

theorem countAdds_cons_add (ops : List DeviceOp) :
    countAdds (.addVariable :: ops) = countAdds ops + 1 := by
  simp [countAdds]

theorem countAdds_replicate (n : Nat) :
    countAdds (List.replicate n DeviceOp.addVariable) = n := by
  induction n with
  | zero => rfl
  | succ n ih => rw [List.replicate_succ, countAdds_cons_add, ih]

theorem countAdds_append (ops1 ops2 : List DeviceOp) :
    countAdds (ops1 ++ ops2) = countAdds ops1 + countAdds ops2 := by
  simp [countAdds]

theorem wellScoped_append (ops1 ops2 : List DeviceOp) :
    ∀ k, wellScoped k (ops1 ++ ops2) =
      (wellScoped k ops1 && wellScoped (k + countAdds ops1) ops2) := by
  induction ops1 with
  | nil => intro k; simp [wellScoped, countAdds]
  | cons op ops ih =>
      intro k
      cases op with
      | addVariable =>
          rw [List.cons_append, countAdds_cons_add,
            show k + (countAdds ops + 1) = k + 1 + countAdds ops by omega]
          simp only [wellScoped]
          exact ih (k + 1)
      | setQuantity r q =>
          simp [wellScoped, ih, countAdds, Bool.and_assoc]
      | setUnit r u =>
          simp [wellScoped, ih, countAdds, Bool.and_assoc]
      | setSensor r x =>
          simp [wellScoped, ih, countAdds, Bool.and_assoc]

theorem run_append {MaxVariables : Nat} (ops1 ops2 : List DeviceOp) :
    ∀ (c c1 : Config MaxVariables), c.run ops1 = .ok c1 →
      c.run (ops1 ++ ops2) = c1.run ops2 := by
  induction ops1 with
  | nil =>
      intro c c1 h
      simp only [Config.run, Outcome.ok.injEq] at h
      subst h; rfl
  | cons op ops ih =>
      intro c c1 h
      simp only [List.cons_append, Config.run] at h ⊢
      cases hs : c.step op with
      | ok c2 => rw [hs] at h; simp only at h ⊢; exact ih c2 c1 h
      | error e => rw [hs] at h; simp at h
      | undefined => rw [hs] at h; simp at h
      | diverges => rw [hs] at h; simp at h

theorem start_registered (MaxVariables : Nat) (junk : Nat → Nat) :
    (Config.start MaxVariables junk).Registered 0 := by
  refine ⟨rfl, rfl, ?_, ?_⟩
  · simp [Config.start, Device.fresh]
  · intro j hj; omega

/-- A call of `addVariable` while the array has room and the counter is below 255. -/
theorem registered_add {MaxVariables : Nat} (c : Config MaxVariables) (k : Nat)
    (hreg : c.Registered k) (hroom : k < MaxVariables) :
    ∃ c1, c.step .addVariable = .ok c1 ∧
      c1.device.num_variables = (k + 1) % 256 ∧ c1.refs = List.range (k + 1) ∧
      c1.device.vars.length = MaxVariables ∧
      ∀ j < k + 1, ∃ v, c1.device.vars[j]? = some v ∧ v.index = j := by
  obtain ⟨hnv, hrefs, hlen, hidx⟩ := hreg
  have hk : k < c.device.vars.length := by omega
  refine ⟨{ device := { num_variables := (k + 1) % 256,
                        vars := c.device.vars.set k { c.device.vars[k] with index := k } },
            refs := c.refs ++ [k] }, ?_, rfl, ?_, ?_, ?_⟩
  · simp [Config.step, Device.addVariable, hnv, List.getElem?_eq_getElem hk]
  · simp [hrefs, List.range_succ]
  · simp [hlen]
  · intro j hj
    by_cases hjk : j = k
    · subst hjk
      exact ⟨{ c.device.vars[j] with index := j }, by simp [List.getElem?_set, hk], rfl⟩
    · obtain ⟨v, hv, hvi⟩ := hidx j (by omega)
      refine ⟨v, ?_, hvi⟩
      simp only [List.getElem?_set]
      rw [if_neg (fun h => hjk h.symm)]
      exact hv

/-- A setter through a returned reference. -/
theorem registered_update {MaxVariables : Nat} (c : Config MaxVariables) (k slot : Nat)
    (f : Variable → Variable) (hf : ∀ v, (f v).index = v.index)
    (hreg : c.Registered k) (hslot : slot < k) :
    ∃ d, c.device.update slot f = .ok d ∧
      ({ c with device := d } : Config MaxVariables).Registered k := by
  obtain ⟨hnv, hrefs, hlen, hidx⟩ := hreg
  obtain ⟨v, hv, hvi⟩ := hidx slot hslot
  refine ⟨{ c.device with vars := c.device.vars.set slot (f v) }, ?_, hnv, hrefs, ?_, ?_⟩
  · simp [Device.update, hv]
  · simp [hlen]
  · intro j hj
    by_cases hjs : j = slot
    · subst hjs
      have hlt : j < c.device.vars.length := by
        rcases Nat.lt_or_ge j c.device.vars.length with h | h
        · exact h
        · rw [List.getElem?_eq_none h] at hv; cases hv
      exact ⟨f v, by simp [List.getElem?_set, hlt], by rw [hf, hvi]⟩
    · obtain ⟨u, hu, hui⟩ := hidx j hj
      refine ⟨u, ?_, hui⟩
      simp only [List.getElem?_set]
      rw [if_neg (fun h => hjs h.symm)]
      exact hu

theorem registered_run {MaxVariables : Nat} (ops : List DeviceOp) :
    ∀ (c : Config MaxVariables) (k : Nat), c.Registered k → wellScoped k ops = true →
      k + countAdds ops ≤ MaxVariables → k + countAdds ops ≤ 255 →
      ∃ c1, c.run ops = .ok c1 ∧ c1.Registered (k + countAdds ops) := by
  induction ops with
  | nil => intro c k hreg _ _ _; exact ⟨c, rfl, by simpa [countAdds] using hreg⟩
  | cons op ops ih =>
      intro c k hreg hscope hcap h8
      cases op with
      | addVariable =>
          rw [countAdds_cons_add] at hcap h8 ⊢
          obtain ⟨c1, hstep, hnv, hrefs, hlen, hidx⟩ := registered_add c k hreg (by omega)
          have hmod : (k + 1) % 256 = k + 1 := by omega
          have hreg1 : c1.Registered (k + 1) := ⟨by rw [hnv, hmod], hrefs, hlen, hidx⟩
          obtain ⟨c2, hrun, hreg2⟩ := ih c1 (k + 1) hreg1 (by simpa [wellScoped] using hscope)
            (by omega) (by omega)
          refine ⟨c2, ?_, ?_⟩
          · simp only [Config.run, hstep]; exact hrun
          · rw [show k + (countAdds ops + 1) = k + 1 + countAdds ops by omega]; exact hreg2
      | setQuantity r q =>
          simp only [wellScoped, Bool.and_eq_true, decide_eq_true_eq] at hscope
          have hca : countAdds (.setQuantity r q :: ops) = countAdds ops := by simp [countAdds]
          rw [hca] at hcap h8 ⊢
          have hr : c.refs[r]? = some r := by
            rw [hreg.2.1]; simp [List.getElem?_range, hscope.1]
          obtain ⟨d, hd, hreg1⟩ := registered_update c k r (fun v => v.setQuantity q)
            (fun _ => rfl) hreg hscope.1
          obtain ⟨c2, hrun, hreg2⟩ := ih _ k hreg1 hscope.2 hcap h8
          exact ⟨c2, by simp only [Config.run, Config.step, hr, hd]; exact hrun, hreg2⟩
      | setUnit r q =>
          simp only [wellScoped, Bool.and_eq_true, decide_eq_true_eq] at hscope
          have hca : countAdds (.setUnit r q :: ops) = countAdds ops := by simp [countAdds]
          rw [hca] at hcap h8 ⊢
          have hr : c.refs[r]? = some r := by
            rw [hreg.2.1]; simp [List.getElem?_range, hscope.1]
          obtain ⟨d, hd, hreg1⟩ := registered_update c k r (fun v => v.setUnit q)
            (fun _ => rfl) hreg hscope.1
          obtain ⟨c2, hrun, hreg2⟩ := ih _ k hreg1 hscope.2 hcap h8
          exact ⟨c2, by simp only [Config.run, Config.step, hr, hd]; exact hrun, hreg2⟩
      | setSensor r q =>
          simp only [wellScoped, Bool.and_eq_true, decide_eq_true_eq] at hscope
          have hca : countAdds (.setSensor r q :: ops) = countAdds ops := by simp [countAdds]
          rw [hca] at hcap h8 ⊢
          have hr : c.refs[r]? = some r := by
            rw [hreg.2.1]; simp [List.getElem?_range, hscope.1]
          obtain ⟨d, hd, hreg1⟩ := registered_update c k r (fun v => v.setSensor q)
            (fun _ => rfl) hreg hscope.1
          obtain ⟨c2, hrun, hreg2⟩ := ih _ k hreg1 hscope.2 hcap h8
          exact ⟨c2, by simp only [Config.run, Config.step, hr, hd]; exact hrun, hreg2⟩

theorem addVariable_ok_bound {MaxVariables : Nat} (d d1 : Device MaxVariables) (slot : Nat)
    (hlen : d.vars.length = MaxVariables) (h : d.addVariable = .ok (d1, slot)) :
    d1.vars.length = MaxVariables ∧ d1.num_variables ≤ MaxVariables := by
  unfold Device.addVariable at h
  cases hv : d.vars[d.num_variables]? with
  | none => rw [hv] at h; simp at h
  | some v =>
      rw [hv] at h
      simp only [Outcome.ok.injEq, Prod.mk.injEq] at h
      obtain ⟨hd, _⟩ := h
      have hlt : d.num_variables < d.vars.length := by
        rcases Nat.lt_or_ge d.num_variables d.vars.length with h1 | h1
        · exact h1
        · rw [List.getElem?_eq_none h1] at hv; cases hv
      subst hd
      refine ⟨by simp [hlen], ?_⟩
      have := Nat.mod_le (d.num_variables + 1) 256
      show (d.num_variables + 1) % 256 ≤ MaxVariables
      omega

theorem update_ok_bound {MaxVariables : Nat} (d d1 : Device MaxVariables) (slot : Nat)
    (f : Variable → Variable) (hlen : d.vars.length = MaxVariables)
    (hnv : d.num_variables ≤ MaxVariables) (h : d.update slot f = .ok d1) :
    d1.vars.length = MaxVariables ∧ d1.num_variables ≤ MaxVariables := by
  unfold Device.update at h
  cases hv : d.vars[slot]? with
  | none => rw [hv] at h; simp at h
  | some v =>
      rw [hv] at h
      simp only [Outcome.ok.injEq] at h
      subst h
      exact ⟨by simp [hlen], hnv⟩

theorem step_ok_bound {MaxVariables : Nat} (c c1 : Config MaxVariables) (op : DeviceOp)
    (hlen : c.device.vars.length = MaxVariables)
    (hnv : c.device.num_variables ≤ MaxVariables) (h : c.step op = .ok c1) :
    c1.device.vars.length = MaxVariables ∧ c1.device.num_variables ≤ MaxVariables := by
  cases op with
  | addVariable =>
      simp only [Config.step] at h
      cases ha : c.device.addVariable with
      | ok r =>
          obtain ⟨d1, slot⟩ := r
          rw [ha] at h
          simp only [Outcome.ok.injEq] at h
          subst h
          exact addVariable_ok_bound c.device d1 slot hlen ha
      | error e => rw [ha] at h; simp at h
      | undefined => rw [ha] at h; simp at h
      | diverges => rw [ha] at h; simp at h
  | setQuantity r q =>
      simp only [Config.step] at h
      cases hr : c.refs[r]? with
      | none => rw [hr] at h; simp at h
      | some slot =>
          rw [hr] at h
          simp only at h
          cases hu : c.device.update slot (fun v => v.setQuantity q) with
          | ok d1 =>
              rw [hu] at h
              simp only [Outcome.ok.injEq] at h
              subst h
              exact update_ok_bound c.device d1 slot _ hlen hnv hu
          | error e => rw [hu] at h; simp at h
          | undefined => rw [hu] at h; simp at h
          | diverges => rw [hu] at h; simp at h
  | setUnit r q =>
      simp only [Config.step] at h
      cases hr : c.refs[r]? with
      | none => rw [hr] at h; simp at h
      | some slot =>
          rw [hr] at h
          simp only at h
          cases hu : c.device.update slot (fun v => v.setUnit q) with
          | ok d1 =>
              rw [hu] at h
              simp only [Outcome.ok.injEq] at h
              subst h
              exact update_ok_bound c.device d1 slot _ hlen hnv hu
          | error e => rw [hu] at h; simp at h
          | undefined => rw [hu] at h; simp at h
          | diverges => rw [hu] at h; simp at h
  | setSensor r q =>
      simp only [Config.step] at h
      cases hr : c.refs[r]? with
      | none => rw [hr] at h; simp at h
      | some slot =>
          rw [hr] at h
          simp only at h
          cases hu : c.device.update slot (fun v => v.setSensor q) with
          | ok d1 =>
              rw [hu] at h
              simp only [Outcome.ok.injEq] at h
              subst h
              exact update_ok_bound c.device d1 slot _ hlen hnv hu
          | error e => rw [hu] at h; simp at h
          | undefined => rw [hu] at h; simp at h
          | diverges => rw [hu] at h; simp at h

theorem run_ok_bound {MaxVariables : Nat} (ops : List DeviceOp) :
    ∀ (c c1 : Config MaxVariables), c.device.vars.length = MaxVariables →
      c.device.num_variables ≤ MaxVariables → c.run ops = .ok c1 →
      c1.device.vars.length = MaxVariables ∧ c1.device.num_variables ≤ MaxVariables := by
  induction ops with
  | nil =>
      intro c c1 hlen hnv h
      simp only [Config.run, Outcome.ok.injEq] at h
      subst h; exact ⟨hlen, hnv⟩
  | cons op ops ih =>
      intro c c1 hlen hnv h
      simp only [Config.run] at h
      cases hs : c.step op with
      | ok c2 =>
          rw [hs] at h
          obtain ⟨hl2, hn2⟩ := step_ok_bound c c2 op hlen hnv hs
          exact ih c2 c1 hl2 hn2 h
      | error e => rw [hs] at h; simp at h
      | undefined => rw [hs] at h; simp at h
      | diverges => rw [hs] at h; simp at h

theorem count_sampleCalls (samples : List (Variable × Int)) :
    (samples.flatMap sampleCalls).count (.writeMap 2) = samples.length := by
  induction samples with
  | nil => rfl
  | cons s samples ih =>
      rw [List.flatMap_cons, List.count_append, ih]
      simp [sampleCalls, List.count_cons, Nat.add_comm]

/-! ## The config message -/

/-- C1: for every Device whose counter is within its capacity, `renderConfig` returns,
and the calls it has made are exactly one complete item, with nothing missing and
nothing left over: an array whose header declares as many items as follow it, made of
a header map of 2 entries and one map of 5 entries per registered Variable; each
`Shortcut` of a registered Variable contributes exactly one call, read as one item. -/
theorem renderConfig_one_wellformed_item {MaxVariables : Nat} (d : Device MaxVariables)
    (out : World) (hwf : d.WellFormed) (hcap : d.num_variables ≤ MaxVariables) :
    ∃ w msg header channels,
      d.renderConfig out = .ok w ∧ w.cbor = out.cbor ++ msg ∧
      readMessage msg = some (.array (.map header :: channels)) ∧
      msg.head? = some (.writeArray (1 + channels.length)) ∧
      header.length = 2 ∧
      channels.length = d.num_variables ∧
      (∀ c ∈ channels, ∃ entries, c = .map entries ∧ entries.length = 5) ∧
      (∀ jv ∈ d.registered,
        jv.2.quantity.encoding.length = 1 ∧ jv.2.unit.encoding.length = 1 ∧
        jv.2.sensor.encoding.length = 1 ∧
        readMessage jv.2.quantity.encoding = some jv.2.quantity.item ∧
        readMessage jv.2.unit.encoding = some jv.2.unit.item ∧
        readMessage jv.2.sensor.encoding = some jv.2.sensor.item) := by
  have hlen : d.num_variables ≤ d.vars.length := by rw [hwf.1]; exact hcap
  have hreg : d.registered.length = d.num_variables := by
    simp [Device.registered, List.enum, List.length_take]; omega
  obtain ⟨w, hw, hc⟩ := renderConfig_ok d out hwf.2 hlen
  refine ⟨w, .writeArray (d.num_variables + 1) :: headerCalls ++
      d.registered.flatMap (fun jv : Nat × Variable => channelCalls jv.1 jv.2),
    [(.int 5, .int 1), (.text [101, 120, 112, 101, 114, 105, 109, 101, 110, 116, 97, 108], .int 1)],
    d.registered.map (fun jv : Nat × Variable => channelItem jv.1 jv.2), hw, hc,
    read_config d hlen, ?_, rfl, ?_, ?_, ?_⟩
  · simp [hreg, Nat.add_comm]
  · simp [hreg]
  · intro c hcmem
    obtain ⟨jv, _, rfl⟩ := List.mem_map.mp hcmem
    exact ⟨_, rfl, rfl⟩
  · intro jv _
    exact ⟨encoding_length _, encoding_length _, encoding_length _, read_encoding _,
      read_encoding _, read_encoding _⟩

/-- C1, at the Device of scenario A. -/
theorem renderConfig_one_wellformed_item_witness :
    scenarioA.WellFormed ∧ scenarioA.num_variables ≤ 2 ∧
    ∃ w msg header channels,
      scenarioA.renderConfig World.empty = .ok w ∧ w.cbor = World.empty.cbor ++ msg ∧
      readMessage msg = some (.array (.map header :: channels)) ∧
      msg.head? = some (.writeArray (1 + channels.length)) ∧
      header.length = 2 ∧
      channels.length = scenarioA.num_variables ∧
      (∀ c ∈ channels, ∃ entries, c = .map entries ∧ entries.length = 5) ∧
      (∀ jv ∈ scenarioA.registered,
        jv.2.quantity.encoding.length = 1 ∧ jv.2.unit.encoding.length = 1 ∧
        jv.2.sensor.encoding.length = 1 ∧
        readMessage jv.2.quantity.encoding = some jv.2.quantity.item ∧
        readMessage jv.2.unit.encoding = some jv.2.unit.item ∧
        readMessage jv.2.sensor.encoding = some jv.2.sensor.item) :=
  ⟨by decide, by decide,
    renderConfig_one_wellformed_item scenarioA World.empty (by decide) (by decide)⟩

/-- C2: for every Device with `num_variables` between 0 and its capacity, 255 included,
the first call of `renderConfig` is the array header declaring `1 + num_variables`
items, a sum that is not reduced modulo 256, and the array read back from the calls
has exactly that many items. -/
theorem renderConfig_declared_length {MaxVariables : Nat} (d : Device MaxVariables)
    (out : World) (hwf : d.WellFormed) (hcap : d.num_variables ≤ MaxVariables) :
    ∃ w rest items,
      d.renderConfig out = .ok w ∧
      w.cbor = out.cbor ++ .writeArray (1 + d.num_variables) :: rest ∧
      readMessage (.writeArray (1 + d.num_variables) :: rest) = some (.array items) ∧
      items.length = 1 + d.num_variables := by
  have hlen : d.num_variables ≤ d.vars.length := by rw [hwf.1]; exact hcap
  have hreg : d.registered.length = d.num_variables := by
    simp [Device.registered, List.enum, List.length_take]; omega
  obtain ⟨w, hw, hc⟩ := renderConfig_ok d out hwf.2 hlen
  refine ⟨w, headerCalls ++ d.registered.flatMap (fun jv : Nat × Variable => channelCalls jv.1 jv.2),
    headerItem :: d.registered.map (fun jv : Nat × Variable => channelItem jv.1 jv.2), hw, ?_, ?_, ?_⟩
  · rw [hc, Nat.add_comm 1, List.cons_append]
  · rw [Nat.add_comm 1]; exact read_config d hlen
  · simp [hreg, Nat.add_comm]

/-- C2, at a Device whose counter holds 255, the largest 8-bit value: the header
declares 256 items. -/
theorem renderConfig_declared_length_witness :
    (Device.mk 255 (List.replicate 255 channel0) : Device 255).WellFormed ∧
    (Device.mk 255 (List.replicate 255 channel0) : Device 255).num_variables ≤ 255 ∧
    ∃ w rest items,
      (Device.mk 255 (List.replicate 255 channel0) : Device 255).renderConfig World.empty
        = .ok w ∧
      w.cbor = World.empty.cbor ++ .writeArray (1 + 255) :: rest ∧
      readMessage (.writeArray (1 + 255) :: rest) = some (.array items) ∧
      items.length = 1 + 255 :=
  ⟨⟨List.length_replicate _ _, by decide⟩, by decide,
    renderConfig_declared_length (Device.mk 255 (List.replicate 255 channel0) : Device 255)
      World.empty ⟨List.length_replicate _ _, by decide⟩ (by decide)⟩

/-- C4 as stated fails: on a Device with no registered Variable the value written for
the key 5 of the header map is 1, the constant of `ItemType::Node`, and not 2; the
message reads as `[{5:1, "experimental":1}]`. -/
theorem renderConfig_header_node_counterexample :
    (Device.fresh 1 (fun _ => 0)).renderConfig World.empty = .ok
      { cbor := [.writeArray 1, .writeMap 2, .writeInt 5, .writeInt 1,
          .writeString (cstr "experimental"), .writeInt 1],
        serial := [] } ∧
    ([.writeArray 1, .writeMap 2, .writeInt 5, .writeInt 1,
        .writeString (cstr "experimental"), .writeInt 1] : List WriterCall) ≠
      [.writeArray 1, .writeMap 2, .writeInt 5, .writeInt 2,
        .writeString (cstr "experimental"), .writeInt 1] ∧
    readMessage [.writeArray 1, .writeMap 2, .writeInt 5, .writeInt 1,
        .writeString (cstr "experimental"), .writeInt 1] =
      some (.array [.map [(.int 5, .int 1),
        (.text ("experimental".toList.map Char.toNat), .int 1)]]) ∧
    readMessage [.writeArray 1, .writeMap 2, .writeInt 5, .writeInt 1,
        .writeString (cstr "experimental"), .writeInt 1] ≠
      some (.array [.map [(.int 5, .int 2),
        (.text ("experimental".toList.map Char.toNat), .int 1)]]) := by
  refine ⟨by decide, by decide, rfl, ?_⟩
  intro h
  have h2 : readMessage [.writeArray 1, .writeMap 2, .writeInt 5, .writeInt 1,
        .writeString (cstr "experimental"), .writeInt 1] =
      some (.array [.map [(.int 5, .int 1),
        (.text ("experimental".toList.map Char.toNat), .int 1)]]) := rfl
  rw [h2] at h
  simp at h

/-- C4, amended: for every Device whose counter is within its capacity, the first item
inside the outer array is a map of exactly 2 entries, in this order: the integer key 5
(`ConfigKey::ItemType`) with the integer value 1 (`ItemType::Node`), then the text key
"experimental" with the integer value 1; item 0 of the message is
`{5:1, "experimental":1}`. -/
theorem renderConfig_header_map {MaxVariables : Nat} (d : Device MaxVariables)
    (out : World) (hwf : d.WellFormed) (hcap : d.num_variables ≤ MaxVariables) :
    ∃ w rest items,
      d.renderConfig out = .ok w ∧
      w.cbor = out.cbor ++ .writeArray (d.num_variables + 1) ::
        ([.writeMap 2, .writeInt (WireEnum.toLong ConfigKey.ItemType),
          .writeInt (WireEnum.toLong ItemType.Node),
          .writeString (cstr "experimental"), .writeInt 1] ++ rest) ∧
      WireEnum.toLong ConfigKey.ItemType = 5 ∧ WireEnum.toLong ItemType.Node = 1 ∧
      readMessage (.writeArray (d.num_variables + 1) ::
        ([.writeMap 2, .writeInt 5, .writeInt 1,
          .writeString (cstr "experimental"), .writeInt 1] ++ rest)) =
        some (.array (.map [(.int 5, .int 1),
          (.text ("experimental".toList.map Char.toNat), .int 1)] :: items)) := by
  have hlen : d.num_variables ≤ d.vars.length := by rw [hwf.1]; exact hcap
  obtain ⟨w, hw, hc⟩ := renderConfig_ok d out hwf.2 hlen
  exact ⟨w, d.registered.flatMap (fun jv : Nat × Variable => channelCalls jv.1 jv.2),
    d.registered.map (fun jv : Nat × Variable => channelItem jv.1 jv.2), hw, hc, rfl, rfl,
    read_config d hlen⟩

/-- C4 amended, at the Device of scenario A. -/
theorem renderConfig_header_map_witness :
    scenarioA.WellFormed ∧ scenarioA.num_variables ≤ 2 ∧
    ∃ w rest items,
      scenarioA.renderConfig World.empty = .ok w ∧
      w.cbor = World.empty.cbor ++ .writeArray (scenarioA.num_variables + 1) ::
        ([.writeMap 2, .writeInt (WireEnum.toLong ConfigKey.ItemType),
          .writeInt (WireEnum.toLong ItemType.Node),
          .writeString (cstr "experimental"), .writeInt 1] ++ rest) ∧
      WireEnum.toLong ConfigKey.ItemType = 5 ∧ WireEnum.toLong ItemType.Node = 1 ∧
      readMessage (.writeArray (scenarioA.num_variables + 1) ::
        ([.writeMap 2, .writeInt 5, .writeInt 1,
          .writeString (cstr "experimental"), .writeInt 1] ++ rest)) =
        some (.array (.map [(.int 5, .int 1),
          (.text ("experimental".toList.map Char.toNat), .int 1)] :: items)) :=
  ⟨by decide, by decide, renderConfig_header_map scenarioA World.empty (by decide) (by decide)⟩

/-! ## Shortcut -/

/-- C5: `to_cbor` makes exactly one call on the writer, fixed by the active variant.
ABSENT writes the special value 0. A text variant whose pointer designates the bytes
`content` (none of them zero) followed by the terminating zero writes a text item whose
bytes are exactly `content`: the flash variant passes a buffer holding `content` and
the length of `content`, the RAM variant passes the C string itself. A numeric
variant writes the integer constant of its enumeration value. -/
theorem to_cbor_one_write {Enum : Type} [WireEnum Enum] (w : World) (num : Enum)
    (content tail : List Nat) (hcontent : ∀ b ∈ content, b ≠ 0) :
    ((Shortcut.ABSENT : Shortcut Enum).to_cbor w).cbor = w.cbor ++ [.writeSpecial 0] ∧
    ((Shortcut.FLASH_STRING (content ++ 0 :: tail) : Shortcut Enum).to_cbor w).cbor =
      w.cbor ++ [.writeStringLen content content.length] ∧
    readMessage [.writeStringLen content content.length] = some (.text content) ∧
    ((Shortcut.RAM_STRING (content ++ 0 :: tail) : Shortcut Enum).to_cbor w).cbor =
      w.cbor ++ [.writeString (content ++ 0 :: tail)] ∧
    readMessage [.writeString (content ++ 0 :: tail)] = some (.text content) ∧
    ((Shortcut.NUM num).to_cbor w).cbor = w.cbor ++ [.writeInt (WireEnum.toLong num)] ∧
    (∀ s : Shortcut Enum, ∃ c, (s.to_cbor w).cbor = w.cbor ++ [c] ∧
      readMessage [c] = some s.item) ∧
    ((Shortcut.NUM Quantity.Temperature).to_cbor w).cbor = w.cbor ++ [.writeInt 1] ∧
    ((Shortcut.NUM Quantity.Humidity).to_cbor w).cbor = w.cbor ++ [.writeInt 2] ∧
    ((Shortcut.NUM Quantity.Voltage).to_cbor w).cbor = w.cbor ++ [.writeInt 3] ∧
    ((Shortcut.NUM Unit.DegreeCelsius).to_cbor w).cbor = w.cbor ++ [.writeInt 1] ∧
    ((Shortcut.NUM Unit.PercentRelativeHumidity).to_cbor w).cbor = w.cbor ++ [.writeInt 2] ∧
    ((Shortcut.NUM Unit.Volt).to_cbor w).cbor = w.cbor ++ [.writeInt 3] ∧
    ((Shortcut.NUM Sensor.Si7021).to_cbor w).cbor = w.cbor ++ [.writeInt 1] := by
  have htw : (content ++ 0 :: tail).takeWhile (fun b => b != 0) = content := by
    induction content with
    | nil => simp
    | cons b bs ih =>
        have hb : b ≠ 0 := hcontent b (by simp)
        have ih2 := ih (fun x hx => hcontent x (by simp [hx]))
        simp [List.takeWhile_cons, hb, ih2]
  have hlen : strlen_P (content ++ 0 :: tail) = content.length := by
    unfold strlen_P; rw [htw]
  have hcpy : memcpy_P (content ++ 0 :: tail) content.length = content := by
    simp [memcpy_P]
  refine ⟨rfl, ?_, ?_, rfl, ?_, rfl, ?_, rfl, rfl, rfl, rfl, rfl, rfl, rfl⟩
  · show w.cbor ++ [WriterCall.writeStringLen
        (memcpy_P (content ++ 0 :: tail) (strlen_P (content ++ 0 :: tail)))
        (strlen_P (content ++ 0 :: tail))] = _
    rw [hlen, hcpy]
  · simp [readMessage, Reader.step, deliver]
  · simp [readMessage, Reader.step, deliver, htw]
  · intro s
    have h1 := to_cbor_cbor s w
    have h2 := encoding_length s
    have h3 := read_encoding s
    match hs : s.encoding, h2 with
    | [c], _ => exact ⟨c, by rw [h1, hs], by rw [← hs]; exact h3⟩

/-- C5, at the flash and RAM strings "Si7021". -/
theorem to_cbor_one_write_witness :
    (∀ b ∈ [83, 105, 55, 48, 50, 49], b ≠ 0) ∧
    ((Shortcut.FLASH_STRING ([83, 105, 55, 48, 50, 49] ++ 0 :: []) :
        Shortcut Sensor).to_cbor World.empty).cbor =
      World.empty.cbor ++
        [.writeStringLen [83, 105, 55, 48, 50, 49] [83, 105, 55, 48, 50, 49].length] ∧
    ((Shortcut.RAM_STRING ([83, 105, 55, 48, 50, 49] ++ 0 :: []) :
        Shortcut Sensor).to_cbor World.empty).cbor =
      World.empty.cbor ++ [.writeString ([83, 105, 55, 48, 50, 49] ++ 0 :: [])] ∧
    readMessage [.writeString ([83, 105, 55, 48, 50, 49] ++ 0 :: [])] =
      some (.text [83, 105, 55, 48, 50, 49]) :=
  ⟨by decide,
    (to_cbor_one_write World.empty Sensor.Si7021 [83, 105, 55, 48, 50, 49] []
      (by decide)).2.1,
    (to_cbor_one_write World.empty Sensor.Si7021 [83, 105, 55, 48, 50, 49] []
      (by decide)).2.2.2.1,
    (to_cbor_one_write World.empty Sensor.Si7021 [83, 105, 55, 48, 50, 49] []
      (by decide)).2.2.2.2.1⟩

/-! ## The data message -/

/-- C6: for every N and every list of `addValue` calls on a newly constructed
`Packet<N>`, the calls made on the writer are the array header declaring N followed, in
call order, by one map per call: the map header 2, the key 1 with the `index` of the
Variable, the key 2 with the value. Scenario B: N = 2 with (channel 0, 215) and
(channel 1, 42) gives `[{1:0,2:215},{1:1,2:42}]`. -/
theorem addValue_sequence (MaxVariables : Nat) (out : World)
    (samples : List (Variable × Int)) :
    ((Packet.new MaxVariables out).addValues samples).out.cbor =
      out.cbor ++ .writeArray MaxVariables ::
        samples.flatMap (fun s : Variable × Int =>
          [.writeMap 2, .writeInt (WireEnum.toLong DataKey.ChannelId), .writeInt s.1.index,
           .writeInt (WireEnum.toLong DataKey.Value), .writeInt s.2]) ∧
    WireEnum.toLong DataKey.ChannelId = 1 ∧ WireEnum.toLong DataKey.Value = 2 ∧
    ((Packet.new 2 World.empty).addValues [(channel0, 215), (channel1, 42)]).out.cbor =
      [.writeArray 2, .writeMap 2, .writeInt 1, .writeInt 0, .writeInt 2, .writeInt 215,
       .writeMap 2, .writeInt 1, .writeInt 1, .writeInt 2, .writeInt 42] ∧
    readMessage
      [.writeArray 2, .writeMap 2, .writeInt 1, .writeInt 0, .writeInt 2, .writeInt 215,
       .writeMap 2, .writeInt 1, .writeInt 1, .writeInt 2, .writeInt 42] =
      some (.array [.map [(.int 1, .int 0), (.int 2, .int 215)],
                    .map [(.int 1, .int 1), (.int 2, .int 42)]]) :=
  ⟨packet_cbor MaxVariables out samples, rfl, rfl, by decide, rfl⟩

/-- C7: for every N, 0 included, when `addValue` is called exactly N times on a newly
constructed `Packet<N>`, the calls made are exactly one complete item: an array whose
header declares N and which holds N items, each of them a map of 2 entries, the key 1
with the `index` of the Variable and the key 2 with the value. -/
theorem addValue_exactly_N (MaxVariables : Nat) (out : World)
    (samples : List (Variable × Int)) (hcount : samples.length = MaxVariables) :
    ∃ rest items,
      ((Packet.new MaxVariables out).addValues samples).out.cbor =
        out.cbor ++ .writeArray MaxVariables :: rest ∧
      readMessage (.writeArray MaxVariables :: rest) = some (.array items) ∧
      items.length = MaxVariables ∧
      (∀ it ∈ items, ∃ entries, it = .map entries ∧ entries.length = 2) ∧
      items = samples.map (fun s : Variable × Int =>
        Item.map [(.int 1, .int s.1.index), (.int 2, .int s.2)]) := by
  refine ⟨samples.flatMap sampleCalls, samples.map sampleItem,
    packet_cbor MaxVariables out samples, ?_, ?_, ?_, rfl⟩
  · rw [← hcount]
    exact read_array sampleCalls sampleItem read_sample samples
  · simp [hcount]
  · intro it hit
    obtain ⟨s, _, rfl⟩ := List.mem_map.mp hit
    exact ⟨_, rfl, rfl⟩

/-- C7, at scenario B (N = 2, two calls). -/
theorem addValue_exactly_N_witness :
    [(channel0, (215 : Int)), (channel1, 42)].length = 2 ∧
    ∃ rest items,
      ((Packet.new 2 World.empty).addValues [(channel0, 215), (channel1, 42)]).out.cbor =
        World.empty.cbor ++ .writeArray 2 :: rest ∧
      readMessage (.writeArray 2 :: rest) = some (.array items) ∧
      items.length = 2 ∧
      (∀ it ∈ items, ∃ entries, it = .map entries ∧ entries.length = 2) ∧
      items = [(channel0, (215 : Int)), (channel1, 42)].map (fun s : Variable × Int =>
        Item.map [(.int 1, .int s.1.index), (.int 2, .int s.2)]) :=
  ⟨rfl, addValue_exactly_N 2 World.empty [(channel0, 215), (channel1, 42)] rfl⟩

/-! ## Registration -/

/-- C8 as stated fails: on a `Device<256>`, after 256 calls of `addVariable` on the
newly constructed Device, every call having stayed inside the array, the 8-bit counter
`num_variables` holds 0 and not 256. -/
theorem addVariable_counter_wraps_counterexample :
    countAdds (List.replicate 256 DeviceOp.addVariable) = 256 ∧
    (((Config.start 256 (fun _ => 0)).run (List.replicate 256 DeviceOp.addVariable)).toOption.map
      (fun c => c.device.num_variables)) = some 0 := by
  refine ⟨countAdds_replicate 256, ?_⟩
  have hscope : ∀ n k, wellScoped k (List.replicate n DeviceOp.addVariable) = true := by
    intro n
    induction n with
    | zero => intro k; rfl
    | succ n ih => intro k; simp only [List.replicate_succ, wellScoped]; exact ih (k + 1)
  have hcount : countAdds (List.replicate 255 DeviceOp.addVariable) = 255 :=
    countAdds_replicate 255
  obtain ⟨c1, hrun1, hreg1⟩ := registered_run (List.replicate 255 DeviceOp.addVariable)
    (Config.start 256 (fun _ => 0)) 0 (start_registered 256 _) (hscope 255 0)
    (by rw [hcount]; decide) (by rw [hcount])
  rw [hcount] at hreg1
  obtain ⟨c2, hstep, hnv, _⟩ := registered_add c1 (0 + 255) hreg1 (by decide)
  have hsplit : List.replicate 256 DeviceOp.addVariable =
      List.replicate 255 DeviceOp.addVariable ++ [DeviceOp.addVariable] := by
    rw [← List.replicate_succ']
  rw [hsplit, run_append _ _ _ c1 hrun1]
  simp only [Config.run, hstep, Outcome.toOption, Option.map_some']
  rw [hnv]

/-- C8, amended: for every capacity N and every program that calls `addVariable` k
times on a newly constructed `Device<N>`, with k <= N and k <= 255, interleaved with
any setters on the returned Variables, the program returns, `num_variables` equals k,
the j-th call has returned slot j, and the Variable in slot j has index j for every
j < k; the same holds after any prefix `ops1` of the program, and the index of a
Variable registered in the prefix is the same after the rest `ops2` has run. -/
theorem addVariable_indices (MaxVariables : Nat) (junk : Nat → Nat)
    (ops1 ops2 : List DeviceOp) (hscope : wellScoped 0 (ops1 ++ ops2) = true)
    (hcap : countAdds (ops1 ++ ops2) ≤ MaxVariables) (h8 : countAdds (ops1 ++ ops2) ≤ 255) :
    ∃ c1 c2,
      (Config.start MaxVariables junk).run ops1 = .ok c1 ∧
      (Config.start MaxVariables junk).run (ops1 ++ ops2) = .ok c2 ∧
      c1.device.num_variables = countAdds ops1 ∧
      c1.refs = List.range (countAdds ops1) ∧
      c2.device.num_variables = countAdds (ops1 ++ ops2) ∧
      c2.refs = List.range (countAdds (ops1 ++ ops2)) ∧
      (∀ j < countAdds (ops1 ++ ops2), ∃ v, c2.device.vars[j]? = some v ∧ v.index = j) ∧
      (∀ j < countAdds ops1, ∃ v1 v2, c1.device.vars[j]? = some v1 ∧
        c2.device.vars[j]? = some v2 ∧ v1.index = j ∧ v2.index = v1.index) := by
  rw [wellScoped_append, Bool.and_eq_true] at hscope
  rw [countAdds_append] at hcap h8
  obtain ⟨c1, hrun1, hreg1⟩ := registered_run ops1 (Config.start MaxVariables junk) 0
    (start_registered _ _) hscope.1 (by omega) (by omega)
  obtain ⟨c2, hrun2, hreg2⟩ := registered_run ops2 c1 (0 + countAdds ops1) hreg1 hscope.2
    (by omega) (by omega)
  rw [Nat.zero_add] at hreg1 hreg2
  refine ⟨c1, c2, hrun1, ?_, hreg1.1, hreg1.2.1, ?_, ?_, ?_, ?_⟩
  · rw [run_append _ _ _ c1 hrun1]; exact hrun2
  · rw [countAdds_append]; exact hreg2.1
  · rw [countAdds_append]; exact hreg2.2.1
  · rw [countAdds_append]; exact hreg2.2.2.2
  · intro j hj
    obtain ⟨v1, hv1, hi1⟩ := hreg1.2.2.2 j hj
    obtain ⟨v2, hv2, hi2⟩ := hreg2.2.2.2 j (by omega)
    exact ⟨v1, v2, hv1, hv2, hi1, by rw [hi1, hi2]⟩

/-- C8 amended, at the program of scenario A, split after the first registration. -/
theorem addVariable_indices_witness :
    wellScoped 0 (scenarioAProgram.take 4 ++ scenarioAProgram.drop 4) = true ∧
    countAdds (scenarioAProgram.take 4 ++ scenarioAProgram.drop 4) ≤ 2 ∧
    countAdds (scenarioAProgram.take 4 ++ scenarioAProgram.drop 4) ≤ 255 ∧
    ∃ c1 c2,
      (Config.start 2 (fun _ => 7)).run (scenarioAProgram.take 4) = .ok c1 ∧
      (Config.start 2 (fun _ => 7)).run
        (scenarioAProgram.take 4 ++ scenarioAProgram.drop 4) = .ok c2 ∧
      c1.device.num_variables = countAdds (scenarioAProgram.take 4) ∧
      c1.refs = List.range (countAdds (scenarioAProgram.take 4)) ∧
      c2.device.num_variables =
        countAdds (scenarioAProgram.take 4 ++ scenarioAProgram.drop 4) ∧
      c2.refs = List.range (countAdds (scenarioAProgram.take 4 ++ scenarioAProgram.drop 4)) ∧
      (∀ j < countAdds (scenarioAProgram.take 4 ++ scenarioAProgram.drop 4),
        ∃ v, c2.device.vars[j]? = some v ∧ v.index = j) ∧
      (∀ j < countAdds (scenarioAProgram.take 4), ∃ v1 v2, c1.device.vars[j]? = some v1 ∧
        c2.device.vars[j]? = some v2 ∧ v1.index = j ∧ v2.index = v1.index) :=
  ⟨by decide, by decide, by decide,
    addVariable_indices 2 (fun _ => 7) (scenarioAProgram.take 4) (scenarioAProgram.drop 4)
      (by decide) (by decide) (by decide)⟩

/-- C9 as stated fails: on a `Device<1>`, the first `addVariable` fills the only slot,
and the second one, made with `num_variables = 1 = N`, indexes `variables[1]`, outside
the array: its outcome is undefined behaviour, where the specification asks for the
failure `CapacityExceeded` with the Device left as it was. -/
theorem addVariable_full_counterexample :
    (Config.start 1 (fun _ => 0)).run [.addVariable] =
      .ok { device := { num_variables := 1,
                        vars := [{ index := 0, quantity := .ABSENT, unit := .ABSENT,
                                   sensor := .ABSENT }] },
            refs := [0] } ∧
    (Device.mk 1 [{ index := 0, quantity := .ABSENT, unit := .ABSENT, sensor := .ABSENT }]
      : Device 1).addVariable = .undefined ∧
    spec_registerVariable (Device.mk 1
      [{ index := 0, quantity := .ABSENT, unit := .ABSENT, sensor := .ABSENT }] : Device 1) =
      .error .CapacityExceeded ∧
    (Config.start 1 (fun _ => 0)).run [.addVariable, .addVariable] = .undefined := by
  decide

/-- C9, amended: `addVariable` makes no capacity check and reports no error, neither
`CapacityExceeded` nor any other. On a `Device<N>` whose `num_variables` is N or more it
indexes `variables` outside the array, which is undefined behaviour, so that no state
of the Device after the call is defined; while `num_variables < N` the call returns,
having registered the slot `num_variables`. In every state that a program reaches from
a newly constructed Device, `num_variables <= N` holds. -/
theorem addVariable_no_capacity_check {MaxVariables : Nat} (d : Device MaxVariables)
    (hwf : d.WellFormed) :
    (∀ e, d.addVariable ≠ .error e) ∧
    (MaxVariables ≤ d.num_variables → d.addVariable = .undefined) ∧
    (d.num_variables < MaxVariables → ∃ v, d.vars[d.num_variables]? = some v ∧
      d.addVariable = .ok ({ num_variables := (d.num_variables + 1) % 256,
                             vars := d.vars.set d.num_variables
                               { v with index := d.num_variables } },
                           d.num_variables)) ∧
    (∀ (junk : Nat → Nat) (ops : List DeviceOp) (c : Config MaxVariables),
      (Config.start MaxVariables junk).run ops = .ok c →
        c.device.num_variables ≤ MaxVariables) := by
  refine ⟨?_, ?_, ?_, ?_⟩
  · intro e
    unfold Device.addVariable
    cases d.vars[d.num_variables]? <;> simp
  · intro hfull
    have : d.vars[d.num_variables]? = none := by
      apply List.getElem?_eq_none; rw [hwf.1]; exact hfull
    simp [Device.addVariable, this]
  · intro hroom
    have hlt : d.num_variables < d.vars.length := by rw [hwf.1]; exact hroom
    exact ⟨d.vars[d.num_variables], List.getElem?_eq_getElem hlt,
      by simp [Device.addVariable, List.getElem?_eq_getElem hlt]⟩
  · intro junk ops c hrun
    exact (run_ok_bound ops (Config.start MaxVariables junk) c
      (by simp [Config.start, Device.fresh]) (Nat.zero_le _) hrun).2

/-- C9 amended, at the Device of scenario A, which is full. -/
theorem addVariable_no_capacity_check_witness :
    scenarioA.WellFormed ∧ scenarioA.addVariable = .undefined ∧
    scenarioA.addVariable ≠ .error .CapacityExceeded :=
  ⟨by decide, (addVariable_no_capacity_check scenarioA (by decide)).2.1 (by decide),
    (addVariable_no_capacity_check scenarioA (by decide)).1 .CapacityExceeded⟩

/-! ## Overflow of a Packet -/

/-- C10 as stated fails: on a `Packet<1>` that has had `addValue` called once, a second
call emits the five calls of its map like the first one; two maps follow an array
header that declares 1, and the calls are no longer one well-formed item. -/
theorem addValue_after_full_counterexample :
    ((Packet.new 1 World.empty).addValues [(channel0, 215)]).out.cbor =
      [.writeArray 1, .writeMap 2, .writeInt 1, .writeInt 0, .writeInt 2, .writeInt 215] ∧
    (((Packet.new 1 World.empty).addValues [(channel0, 215)]).addValue channel0 216).out.cbor =
      [.writeArray 1, .writeMap 2, .writeInt 1, .writeInt 0, .writeInt 2, .writeInt 215,
       .writeMap 2, .writeInt 1, .writeInt 0, .writeInt 2, .writeInt 216] ∧
    readMessage
      [.writeArray 1, .writeMap 2, .writeInt 1, .writeInt 0, .writeInt 2, .writeInt 215,
       .writeMap 2, .writeInt 1, .writeInt 0, .writeInt 2, .writeInt 216] = none :=
  ⟨by decide, by decide, rfl⟩

/-- C10, amended: a Packet keeps no count of the values added and `addValue` cannot
fail: every call, whatever the number of earlier calls, emits the five calls of its
map. After m calls on a newly constructed `Packet<N>` the number of maps written after
the array header is m, which exceeds the declared length N as soon as m > N. -/
theorem addValue_always_emits (MaxVariables : Nat) (p : Packet MaxVariables) (v : Variable)
    (x : Int) (out : World) (samples : List (Variable × Int)) :
    (p.addValue v x).out.cbor =
      p.out.cbor ++ [.writeMap 2, .writeInt 1, .writeInt v.index, .writeInt 2, .writeInt x] ∧
    ∃ rest,
      ((Packet.new MaxVariables out).addValues samples).out.cbor =
        out.cbor ++ .writeArray MaxVariables :: rest ∧
      rest.count (.writeMap 2) = samples.length ∧
      rest.length = 5 * samples.length :=
  ⟨addValue_cbor p v x, samples.flatMap sampleCalls, packet_cbor MaxVariables out samples,
    count_sampleCalls samples, by
      induction samples with
      | nil => rfl
      | cons s samples ih =>
          rw [List.flatMap_cons, List.length_append, ih]
          simp [sampleCalls]; omega⟩

/-! ## Lemmas on the bytes of the writer -/

theorem readArgument_cborHead (major n : Nat) (rest : List Nat)
    (hn : n < 4294967296) :
    ∃ b r, cborHead major n ++ rest = b :: r ∧ b / 32 = major ∧
      readArgument (b % 32) r = some (n, rest) := by
  unfold cborHead
  by_cases h1 : n < 24
  · refine ⟨major * 32 + n, rest, by simp [h1], by omega, ?_⟩
    have hm : (major * 32 + n) % 32 = n := by omega
    simp [readArgument, hm, h1]
  · by_cases h2 : n < 256
    · refine ⟨major * 32 + 24, n :: rest, by simp [h1, h2], by omega, ?_⟩
      have hm : (major * 32 + 24) % 32 = 24 := by omega
      simp [readArgument, hm]
    · by_cases h3 : n < 65536
      · refine ⟨major * 32 + 25, n / 256 :: n % 256 :: rest, by simp [h1, h2, h3], by omega, ?_⟩
        have hm : (major * 32 + 25) % 32 = 25 := by omega
        have hv : n / 256 * 256 + n % 256 = n := by omega
        simp [readArgument, hm, hv]
      · refine ⟨major * 32 + 26,
          n / 16777216 :: n / 65536 % 256 :: n / 256 % 256 :: n % 256 :: rest,
          by simp [h1, h2, h3, hn], by omega, ?_⟩
        have hm : (major * 32 + 26) % 32 = 26 := by omega
        have hv : ((n / 16777216 * 256 + n / 65536 % 256) * 256 + n / 256 % 256) * 256
            + n % 256 = n := by omega
        simp [readArgument, hm, hv]

theorem readIntBytes_writeIntBytes (value : Int) (rest : List Nat)
    (hlo : -2147483648 ≤ value) (hhi : value ≤ 2147483647) :
    readIntBytes (writeIntBytes value ++ rest) = some (value, rest) := by
  unfold writeIntBytes
  by_cases h0 : 0 ≤ value
  · obtain ⟨b, r, hb, hmaj, harg⟩ :=
      readArgument_cborHead 0 value.toNat rest (by omega)
    rw [if_pos h0, hb]
    simp only [readIntBytes, harg, hmaj, if_true]
    rw [Int.toNat_of_nonneg h0]
  · obtain ⟨b, r, hb, hmaj, harg⟩ :=
      readArgument_cborHead 1 (-1 - value).toNat rest (by omega)
    rw [if_neg h0, hb]
    simp only [readIntBytes, harg, hmaj]
    have hn : ((-1 - value).toNat : Int) = -1 - value := Int.toNat_of_nonneg (by omega)
    simp [hn]

theorem writeIntBytes_major (value : Int)
    (hlo : -2147483648 ≤ value) (hhi : value ≤ 2147483647) :
    (writeIntBytes value).head?.map (fun b => b / 32) = some (if 0 ≤ value then 0 else 1) := by
  unfold writeIntBytes
  by_cases h0 : 0 ≤ value
  · obtain ⟨b, r, hb, hmaj, _⟩ :=
      readArgument_cborHead 0 value.toNat [] (by omega)
    rw [List.append_nil] at hb
    simp [h0, hb, hmaj]
  · obtain ⟨b, r, hb, hmaj, _⟩ :=
      readArgument_cborHead 1 (-1 - value).toNat [] (by omega)
    rw [List.append_nil] at hb
    simp [h0, hb, hmaj]

/-! ## The value of a sample -/

/-- C11: for every signed 32-bit value, the extremes included, the last call of
`addValue` is `writeInt` with the value itself as argument, neither truncated nor made
unsigned, and the reference reader gets the value back as the entry of key 2. On the
wire a reference decoder reads back exactly the value, and a negative value is an item
of the negative-integer major type. Scenario C: the value -5 is the byte 0x24 and
reads back as -5. -/
theorem addValue_signed_value {MaxVariables : Nat} (p : Packet MaxVariables) (var : Variable)
    (value : Int) (rest : List Nat)
    (hlo : -2147483648 ≤ value) (hhi : value ≤ 2147483647) :
    (p.addValue var value).out.cbor =
      p.out.cbor ++ [.writeMap 2, .writeInt 1, .writeInt var.index, .writeInt 2,
        .writeInt value] ∧
    readMessage [.writeMap 2, .writeInt 1, .writeInt var.index, .writeInt 2,
        .writeInt value] = some (.map [(.int 1, .int var.index), (.int 2, .int value)]) ∧
    (Item.map [(.int 1, .int var.index), (.int 2, .int value)]).intAt 2 = some value ∧
    readIntBytes ((WriterCall.writeInt value).bytes ++ rest) = some (value, rest) ∧
    ((WriterCall.writeInt value).bytes.head?.map (fun b => b / 32)
      = some (if 0 ≤ value then 0 else 1)) ∧
    (WriterCall.writeInt (-5)).bytes = [36] ∧
    readIntBytes [36] = some (-5, []) ∧
    ((Packet.new 1 World.empty).addValue channel0 (-5)).out.cbor =
      [.writeArray 1, .writeMap 2, .writeInt 1, .writeInt 0, .writeInt 2, .writeInt (-5)] ∧
    readMessage
      [.writeArray 1, .writeMap 2, .writeInt 1, .writeInt 0, .writeInt 2, .writeInt (-5)] =
      some (.array [.map [(.int 1, .int 0), (.int 2, .int (-5))]]) := by
  refine ⟨addValue_cbor p var value, rfl, ?_, readIntBytes_writeIntBytes value rest hlo hhi,
    writeIntBytes_major value hlo hhi, by decide, by decide, by decide, rfl⟩
  simp [Item.intAt, Item.valueAt]

/-- C11, at the most negative 32-bit value. -/
theorem addValue_signed_value_witness :
    (-2147483648 : Int) ≤ -2147483648 ∧ (-2147483648 : Int) ≤ 2147483647 ∧
    ((Packet.new 1 World.empty).addValue channel0 (-2147483648)).out.cbor =
      (Packet.new 1 World.empty).out.cbor ++ [.writeMap 2, .writeInt 1,
        .writeInt channel0.index, .writeInt 2, .writeInt (-2147483648)] ∧
    readIntBytes ((WriterCall.writeInt (-2147483648)).bytes ++ []) =
      some (-2147483648, []) :=
  ⟨by decide, by decide,
    (addValue_signed_value (Packet.new 1 World.empty) channel0 (-2147483648) []
      (by decide) (by decide)).1,
    (addValue_signed_value (Packet.new 1 World.empty) channel0 (-2147483648) []
      (by decide) (by decide)).2.2.2.1⟩

/-! ## Reading a Shortcut back -/

theorem decode_encoding {Enum : Type} [WireEnum Enum] [WireDecode Enum]
    (hlaw : ∀ e : Enum, WireDecode.ofLong (WireEnum.toLong e) = some e)
    (x : Shortcut Enum) (hx : x ≠ .ABSENT) :
    x.meaning ≠ none ∧ (readMessage x.encoding).bind decodeShortcut = x.meaning := by
  rw [read_encoding]
  cases x with
  | ABSENT => exact absurd rfl hx
  | FLASH_STRING p => exact ⟨by simp [Shortcut.meaning], rfl⟩
  | RAM_STRING p => exact ⟨by simp [Shortcut.meaning], rfl⟩
  | NUM e =>
      refine ⟨by simp [Shortcut.meaning], ?_⟩
      simp [Shortcut.item, decodeShortcut, hlaw, Shortcut.meaning]

theorem roundTrips_of_law {Enum : Type} [WireEnum Enum] [WireDecode Enum]
    (hlaw : ∀ e : Enum, WireDecode.ofLong (WireEnum.toLong e) = some e) :
    RoundTrips Enum := by
  refine ⟨fun x hx => decode_encoding hlaw x hx, ?_⟩
  intro x y hx hy hne heq
  apply hne
  rw [← (decode_encoding hlaw x hx).2, ← (decode_encoding hlaw y hy).2, heq]

/-- C12: reading undoes writing for the `Shortcut` values of `Quantity`, `Unit` and
`Sensor`: for every value that is not absent, the reference reader applied to the item
written by `to_cbor` gives the meaning of the value, the same string for a text
variant and the same enumeration value for a numeric variant; two values that are not
absent and differ in meaning are never written as the same item. -/
theorem shortcut_round_trip :
    RoundTrips Quantity ∧ RoundTrips Unit ∧ RoundTrips Sensor ∧
    (readMessage (Shortcut.NUM Quantity.Humidity).encoding).bind
      (decodeShortcut : Item → Option (Meaning Quantity)) =
      some (Meaning.code Quantity.Humidity) ∧
    (readMessage (Shortcut.FLASH_STRING (cstr "Si7021") : Shortcut Sensor).encoding).bind
      (decodeShortcut : Item → Option (Meaning Sensor)) =
      some (Meaning.text ("Si7021".toList.map Char.toNat)) ∧
    (readMessage (Shortcut.RAM_STRING (cstr "Si7021") : Shortcut Sensor).encoding).bind
      (decodeShortcut : Item → Option (Meaning Sensor)) =
      some (Meaning.text ("Si7021".toList.map Char.toNat)) := by
  refine ⟨roundTrips_of_law ?_, roundTrips_of_law ?_, roundTrips_of_law ?_, rfl, rfl, rfl⟩
  · intro e; cases e <;> rfl
  · intro e; cases e <;> rfl
  · intro e; cases e; rfl

/-- C13: for every string, given as the bytes `content` (none of them zero) followed by
the terminating zero and by whatever lies behind it in flash or in RAM, the flash
variant and the RAM variant each make one call, and the two calls are the same text
item: the bytes `content`, of the length of `content`, and the same bytes on the
wire. -/
theorem flash_ram_same_item {Enum : Type} [WireEnum Enum] (content tail1 tail2 : List Nat)
    (hcontent : ∀ b ∈ content, b ≠ 0) :
    (Shortcut.FLASH_STRING (content ++ 0 :: tail1) : Shortcut Enum).encoding =
      [.writeStringLen content content.length] ∧
    (Shortcut.RAM_STRING (content ++ 0 :: tail2) : Shortcut Enum).encoding =
      [.writeString (content ++ 0 :: tail2)] ∧
    readMessage (Shortcut.FLASH_STRING (content ++ 0 :: tail1) : Shortcut Enum).encoding =
      some (.text content) ∧
    readMessage (Shortcut.RAM_STRING (content ++ 0 :: tail2) : Shortcut Enum).encoding =
      some (.text content) ∧
    (Shortcut.FLASH_STRING (content ++ 0 :: tail1) : Shortcut Enum).encoding.flatMap
        WriterCall.bytes =
      (Shortcut.RAM_STRING (content ++ 0 :: tail2) : Shortcut Enum).encoding.flatMap
        WriterCall.bytes ∧
    (Shortcut.FLASH_STRING (content ++ 0 :: tail1) : Shortcut Enum).encoding.flatMap
        WriterCall.bytes = cborHead 3 content.length ++ content ∧
    (∀ (p : CString) (w : World),
      ((Shortcut.FLASH_STRING p : Shortcut Enum).to_cbor w).cbor.map
          (fun c => readMessage [c]) =
        ((Shortcut.RAM_STRING p : Shortcut Enum).to_cbor w).cbor.map
          (fun c => readMessage [c])) := by
  have htw : ∀ tail : List Nat,
      (content ++ 0 :: tail).takeWhile (fun b => b != 0) = content := by
    intro tail
    induction content with
    | nil => simp
    | cons b bs ih =>
        have hb : b ≠ 0 := hcontent b (by simp)
        have ih2 := ih (fun x hx => hcontent x (by simp [hx]))
        simp [List.takeWhile_cons, hb, ih2]
  have hlen : ∀ tail : List Nat, strlen_P (content ++ 0 :: tail) = content.length := by
    intro tail; unfold strlen_P; rw [htw]
  have hflash : (Shortcut.FLASH_STRING (content ++ 0 :: tail1) : Shortcut Enum).encoding =
      [.writeStringLen content content.length] := by
    show [WriterCall.writeStringLen
        (memcpy_P (content ++ 0 :: tail1) (strlen_P (content ++ 0 :: tail1)))
        (strlen_P (content ++ 0 :: tail1))] = _
    rw [hlen]; simp [memcpy_P]
  have hram : (Shortcut.RAM_STRING (content ++ 0 :: tail2) : Shortcut Enum).encoding =
      [.writeString (content ++ 0 :: tail2)] := rfl
  refine ⟨hflash, hram, ?_, ?_, ?_, ?_, ?_⟩
  · rw [read_encoding]; simp [Shortcut.item, htw]
  · rw [read_encoding]; simp [Shortcut.item, htw]
  · rw [hflash, hram]; simp [WriterCall.bytes, hlen, htw]
  · rw [hflash]; simp [WriterCall.bytes]
  · intro p w
    rw [to_cbor_cbor, to_cbor_cbor, List.map_append, List.map_append]
    congr 1
    have h1 := read_encoding (Shortcut.FLASH_STRING p : Shortcut Enum)
    have h2 := read_encoding (Shortcut.RAM_STRING p : Shortcut Enum)
    have e1 : (Shortcut.FLASH_STRING p : Shortcut Enum).encoding =
        [.writeStringLen (memcpy_P p (strlen_P p)) (strlen_P p)] := rfl
    have e2 : (Shortcut.RAM_STRING p : Shortcut Enum).encoding = [.writeString p] := rfl
    rw [e1] at h1 ⊢
    rw [e2] at h2 ⊢
    simp only [List.map_cons, List.map_nil, h1, h2]
    rfl

/-- C13, at the string "Si7021", followed in flash by other bytes. -/
theorem flash_ram_same_item_witness :
    (∀ b ∈ [83, 105, 55, 48, 50, 49], b ≠ 0) ∧
    readMessage (Shortcut.FLASH_STRING ([83, 105, 55, 48, 50, 49] ++ 0 :: [37, 82, 72, 0]) :
        Shortcut Sensor).encoding = some (.text [83, 105, 55, 48, 50, 49]) ∧
    readMessage (Shortcut.RAM_STRING ([83, 105, 55, 48, 50, 49] ++ 0 :: []) :
        Shortcut Sensor).encoding = some (.text [83, 105, 55, 48, 50, 49]) :=
  ⟨by decide,
    (flash_ram_same_item [83, 105, 55, 48, 50, 49] [37, 82, 72, 0] [] (by decide)).2.2.1,
    (flash_ram_same_item [83, 105, 55, 48, 50, 49] [37, 82, 72, 0] [] (by decide)).2.2.2.1⟩

/-! ## The setters of a Variable -/

/-- C14: each of `setQuantity`, `setUnit`, `setSensor` assigns its own member, leaves
`index` and the two other members as they were, and gives the Variable so changed;
the three setters commute with each other, all six orders of applying them give the
same Variable, and of two calls of the same setter only the last argument is kept. -/
theorem setters_frame (v : Variable) (q q2 : Shortcut Quantity) (u u2 : Shortcut Unit)
    (s s2 : Shortcut Sensor) :
    (v.setQuantity q = { index := v.index, quantity := q, unit := v.unit,
                         sensor := v.sensor }) ∧
    (v.setUnit u = { index := v.index, quantity := v.quantity, unit := u,
                     sensor := v.sensor }) ∧
    (v.setSensor s = { index := v.index, quantity := v.quantity, unit := v.unit,
                       sensor := s }) ∧
    (v.setQuantity q).setUnit u = (v.setUnit u).setQuantity q ∧
    (v.setQuantity q).setSensor s = (v.setSensor s).setQuantity q ∧
    (v.setUnit u).setSensor s = (v.setSensor s).setUnit u ∧
    ((v.setQuantity q).setUnit u).setSensor s = ((v.setQuantity q).setSensor s).setUnit u ∧
    ((v.setQuantity q).setUnit u).setSensor s = ((v.setUnit u).setQuantity q).setSensor s ∧
    ((v.setQuantity q).setUnit u).setSensor s = ((v.setUnit u).setSensor s).setQuantity q ∧
    ((v.setQuantity q).setUnit u).setSensor s = ((v.setSensor s).setQuantity q).setUnit u ∧
    ((v.setQuantity q).setUnit u).setSensor s = ((v.setSensor s).setUnit u).setQuantity q ∧
    (v.setQuantity q).setQuantity q2 = v.setQuantity q2 ∧
    (v.setUnit u).setUnit u2 = v.setUnit u2 ∧
    (v.setSensor s).setSensor s2 = v.setSensor s2 :=
  ⟨rfl, rfl, rfl, rfl, rfl, rfl, rfl, rfl, rfl, rfl, rfl, rfl, rfl, rfl⟩

/-! ## The effects of `to_cbor` -/

/-- C15 as stated fails: `to_cbor` of an absent `Shortcut` on an output where nothing
has been written makes its call on the writer and also prints the line "absent" on
`Serial`, an output other than the sink of the writer. -/
theorem to_cbor_prints_counterexample :
    (Shortcut.ABSENT : Shortcut Quantity).to_cbor World.empty =
      { cbor := [.writeSpecial 0], serial := ["absent"] } ∧
    ((Shortcut.ABSENT : Shortcut Quantity).to_cbor World.empty).serial ≠ World.empty.serial := by
  decide

/-- C15, amended: `to_cbor` reads the `Shortcut` and returns nothing, so that the
`Shortcut` is as before; its effects are its single call on the writer and one line
printed on `Serial`, which names the variant: "absent", "flash", "ram" or "num". -/
theorem to_cbor_effects {Enum : Type} [WireEnum Enum] (s : Shortcut Enum) (w : World) :
    ∃ c, s.to_cbor w =
        { cbor := w.cbor ++ [c],
          serial := w.serial ++
            [match s with
             | .ABSENT => "absent"
             | .FLASH_STRING _ => "flash"
             | .RAM_STRING _ => "ram"
             | .NUM _ => "num"] } ∧
      s.encoding = [c] := by
  cases s with
  | ABSENT => exact ⟨_, rfl, rfl⟩
  | FLASH_STRING p => exact ⟨_, rfl, rfl⟩
  | RAM_STRING p => exact ⟨_, rfl, rfl⟩
  | NUM n => exact ⟨_, rfl, rfl⟩

/-! ## What `addValue` reads of a Variable -/

/-- C16: `addValue` reads nothing of the Variable but its `index`: for every Packet,
every value and every two Variables with the same `index`, whatever their quantity,
unit and sensor, the two calls leave the same Packet, hence the same calls on the
writer; `addValue` returns nothing of the Variable, which is as before. -/
theorem addValue_reads_index_only {MaxVariables : Nat} (p : Packet MaxVariables)
    (a b : Variable) (value : Int) (hindex : a.index = b.index) :
    p.addValue a value = p.addValue b value ∧
    (p.addValue a value).out.cbor = (p.addValue b value).out.cbor ∧
    (p.addValue a value).out.cbor =
      p.out.cbor ++ [.writeMap 2, .writeInt 1, .writeInt a.index, .writeInt 2,
        .writeInt value] := by
  have h : p.addValue a value = p.addValue b value := by
    simp [Packet.addValue, hindex]
  exact ⟨h, by rw [h], addValue_cbor p a value⟩

/-- C16, at channel 0 of scenario A and an unconfigured Variable of index 0. -/
theorem addValue_reads_index_only_witness :
    channel0.index = (Variable.new 0).index ∧
    (Packet.new 1 World.empty).addValue channel0 215 =
      (Packet.new 1 World.empty).addValue (Variable.new 0) 215 :=
  ⟨by decide,
    (addValue_reads_index_only (Packet.new 1 World.empty) channel0 (Variable.new 0) 215
      (by decide)).1⟩

/-! ## Lemmas on the members that a program leaves alone -/

theorem set_lookup {α : Type} (l : List α) (s j : Nat) (x y : α)
    (h : (l.set s x)[j]? = some y) :
    (j = s ∧ y = x) ∨ (j ≠ s ∧ l[j]? = some y) := by
  rw [List.getElem?_set] at h
  by_cases hsj : s = j
  · rw [if_pos hsj] at h
    by_cases hlt : s < l.length
    · rw [if_pos hlt] at h
      exact Or.inl ⟨hsj.symm, (Option.some.inj h).symm⟩
    · rw [if_neg hlt] at h; cases h
  · rw [if_neg hsj] at h
    exact Or.inr ⟨fun e => hsj e.symm, h⟩

theorem update_vars {MaxVariables : Nat} (d d1 : Device MaxVariables) (slot : Nat)
    (g : Variable → Variable) (h : d.update slot g = .ok d1) :
    ∃ v0, d.vars[slot]? = some v0 ∧ d1.vars = d.vars.set slot (g v0) ∧
      d1.num_variables = d.num_variables := by
  unfold Device.update at h
  cases hv : d.vars[slot]? with
  | none => rw [hv] at h; simp at h
  | some v =>
      rw [hv] at h
      simp only [Outcome.ok.injEq] at h
      subst h
      exact ⟨v, rfl, rfl, rfl⟩

theorem addVariable_vars {MaxVariables : Nat} (d d1 : Device MaxVariables) (slot : Nat)
    (h : d.addVariable = .ok (d1, slot)) :
    ∃ v0, d.vars[slot]? = some v0 ∧ d1.vars = d.vars.set slot { v0 with index := slot } := by
  unfold Device.addVariable at h
  cases hv : d.vars[d.num_variables]? with
  | none => rw [hv] at h; simp at h
  | some v =>
      rw [hv] at h
      simp only [Outcome.ok.injEq, Prod.mk.injEq] at h
      obtain ⟨hd, hs⟩ := h
      subst hd
      subst hs
      exact ⟨v, hv, rfl⟩

/-- A setter leaves alone the members of the other Variables and the other members of
its own Variable. -/
theorem setter_frame {MaxVariables : Nat} (c0 : Config MaxVariables) (d1 : Device MaxVariables)
    (r slot : Nat) (g : Variable → Variable) (own : Field)
    (hg : ∀ (f : Field) (v : Variable), f ≠ own → v.absentAt f → (g v).absentAt f)
    (hr : c0.refs[r]? = some slot) (hupd : c0.device.update slot g = .ok d1)
    (f : Field) (j : Nat) (v1 : Variable) (hv1 : d1.vars[j]? = some v1)
    (hfree : f = own → c0.refs[r]? ≠ some j) :
    ∃ v0, c0.device.vars[j]? = some v0 ∧ (v0.absentAt f → v1.absentAt f) := by
  obtain ⟨v0, hv0, hvars, _⟩ := update_vars c0.device d1 slot g hupd
  rw [hvars] at hv1
  rcases set_lookup _ _ _ _ _ hv1 with ⟨hjs, hy⟩ | ⟨_, hsame⟩
  · subst hjs
    have hne : f ≠ own := by
      intro hf
      exact hfree hf hr
    exact ⟨v0, hv0, fun ha => by rw [hy]; exact hg f v0 hne ha⟩
  · exact ⟨v1, hsame, fun ha => ha⟩

theorem step_frame {MaxVariables : Nat} (c0 c1 : Config MaxVariables) (op : DeviceOp)
    (h : c0.step op = .ok c1) :
    (∃ t, c1.refs = c0.refs ++ t) ∧
    ∀ (f : Field) (j : Nat) (v1 : Variable), c1.device.vars[j]? = some v1 →
      (∀ r, op.setsField f = some r → c0.refs[r]? ≠ some j) →
      ∃ v0, c0.device.vars[j]? = some v0 ∧ (v0.absentAt f → v1.absentAt f) := by
  cases op with
  | addVariable =>
      simp only [Config.step] at h
      cases ha : c0.device.addVariable with
      | ok res =>
          obtain ⟨d1, slot⟩ := res
          rw [ha] at h
          simp only [Outcome.ok.injEq] at h
          subst h
          refine ⟨⟨[slot], rfl⟩, ?_⟩
          intro f j v1 hv1 _
          obtain ⟨v0, hv0, hvars⟩ := addVariable_vars c0.device d1 slot ha
          simp only at hv1
          rw [hvars] at hv1
          rcases set_lookup _ _ _ _ _ hv1 with ⟨hjs, hy⟩ | ⟨_, hsame⟩
          · subst hjs
            refine ⟨v0, hv0, fun hab => ?_⟩
            rw [hy]
            cases f <;> exact hab
          · exact ⟨v1, hsame, fun hab => hab⟩
      | error e => rw [ha] at h; simp at h
      | undefined => rw [ha] at h; simp at h
      | diverges => rw [ha] at h; simp at h
  | setQuantity r q =>
      simp only [Config.step] at h
      cases hr : c0.refs[r]? with
      | none => rw [hr] at h; simp at h
      | some slot =>
          rw [hr] at h
          simp only at h
          cases hu : c0.device.update slot (fun v => v.setQuantity q) with
          | ok d1 =>
              rw [hu] at h
              simp only [Outcome.ok.injEq] at h
              subst h
              refine ⟨⟨[], by simp⟩, ?_⟩
              intro f j v1 hv1 hfree
              refine setter_frame c0 d1 r slot _ .quantity ?_ hr hu f j v1 hv1 ?_
              · intro f2 v hne hab
                cases f2
                · exact absurd rfl hne
                · exact hab
                · exact hab
              · intro hf; subst hf; exact hfree r rfl
          | error e => rw [hu] at h; simp at h
          | undefined => rw [hu] at h; simp at h
          | diverges => rw [hu] at h; simp at h
  | setUnit r q =>
      simp only [Config.step] at h
      cases hr : c0.refs[r]? with
      | none => rw [hr] at h; simp at h
      | some slot =>
          rw [hr] at h
          simp only at h
          cases hu : c0.device.update slot (fun v => v.setUnit q) with
          | ok d1 =>
              rw [hu] at h
              simp only [Outcome.ok.injEq] at h
              subst h
              refine ⟨⟨[], by simp⟩, ?_⟩
              intro f j v1 hv1 hfree
              refine setter_frame c0 d1 r slot _ .unit ?_ hr hu f j v1 hv1 ?_
              · intro f2 v hne hab
                cases f2
                · exact hab
                · exact absurd rfl hne
                · exact hab
              · intro hf; subst hf; exact hfree r rfl
          | error e => rw [hu] at h; simp at h
          | undefined => rw [hu] at h; simp at h
          | diverges => rw [hu] at h; simp at h
  | setSensor r q =>
      simp only [Config.step] at h
      cases hr : c0.refs[r]? with
      | none => rw [hr] at h; simp at h
      | some slot =>
          rw [hr] at h
          simp only at h
          cases hu : c0.device.update slot (fun v => v.setSensor q) with
          | ok d1 =>
              rw [hu] at h
              simp only [Outcome.ok.injEq] at h
              subst h
              refine ⟨⟨[], by simp⟩, ?_⟩
              intro f j v1 hv1 hfree
              refine setter_frame c0 d1 r slot _ .sensor ?_ hr hu f j v1 hv1 ?_
              · intro f2 v hne hab
                cases f2
                · exact hab
                · exact hab
                · exact absurd rfl hne
              · intro hf; subst hf; exact hfree r rfl
          | error e => rw [hu] at h; simp at h
          | undefined => rw [hu] at h; simp at h
          | diverges => rw [hu] at h; simp at h

theorem prefix_lookup {α : Type} (l t : List α) (r : Nat) (x : α) (h : l[r]? = some x) :
    (l ++ t)[r]? = some x := by
  have hlt : r < l.length := by
    rcases Nat.lt_or_ge r l.length with h1 | h1
    · exact h1
    · rw [List.getElem?_eq_none h1] at h; cases h
  rw [List.getElem?_append_left hlt]; exact h

theorem run_frame {MaxVariables : Nat} (ops : List DeviceOp) :
    ∀ (c0 c : Config MaxVariables), c0.run ops = .ok c →
      (∃ t, c.refs = c0.refs ++ t) ∧
      ∀ (f : Field) (j : Nat) (v : Variable), c.device.vars[j]? = some v →
        (∀ op ∈ ops, ∀ r, op.setsField f = some r → c.refs[r]? ≠ some j) →
        ∃ v0, c0.device.vars[j]? = some v0 ∧ (v0.absentAt f → v.absentAt f) := by
  induction ops with
  | nil =>
      intro c0 c h
      simp only [Config.run, Outcome.ok.injEq] at h
      subst h
      exact ⟨⟨[], by simp⟩, fun f j v hv _ => ⟨v, hv, fun hab => hab⟩⟩
  | cons op ops ih =>
      intro c0 c h
      simp only [Config.run] at h
      cases hs : c0.step op with
      | ok c1 =>
          rw [hs] at h
          simp only at h
          obtain ⟨⟨t1, ht1⟩, hstep⟩ := step_frame c0 c1 op hs
          obtain ⟨⟨t2, ht2⟩, hrest⟩ := ih c1 c h
          refine ⟨⟨t1 ++ t2, by rw [ht2, ht1, List.append_assoc]⟩, ?_⟩
          intro f j v hv hfree
          obtain ⟨v1, hv1, hab1⟩ := hrest f j v hv
            (fun op2 hop2 r hr => hfree op2 (List.mem_cons_of_mem _ hop2) r hr)
          obtain ⟨v0, hv0, hab0⟩ := hstep f j v1 hv1 (by
            intro r hr hc0
            apply hfree op (List.mem_cons_self _ _) r hr
            rw [ht2, ht1, List.append_assoc]
            exact prefix_lookup _ _ _ _ hc0)
          exact ⟨v0, hv0, fun hab => hab1 (hab0 hab)⟩
      | error e => rw [hs] at h; simp at h
      | undefined => rw [hs] at h; simp at h
      | diverges => rw [hs] at h; simp at h

theorem fresh_absent (MaxVariables : Nat) (junk : Nat → Nat) (j : Nat) (v : Variable)
    (f : Field) (h : (Device.fresh MaxVariables junk).vars[j]? = some v) : v.absentAt f := by
  simp only [Device.fresh, List.getElem?_map] at h
  cases hr : (List.range MaxVariables)[j]? with
  | none => rw [hr] at h; cases h
  | some n =>
      rw [hr] at h
      simp only [Option.map_some', Option.some.injEq] at h
      subst h
      cases f <;> rfl

theorem range_lookup (k r j : Nat) (h : (List.range k)[r]? = some j) : r = j := by
  rcases Nat.lt_or_ge r k with h1 | h1
  · rw [List.getElem?_range h1] at h
    exact Option.some.inj h
  · rw [List.getElem?_eq_none (by simpa using h1)] at h; cases h

theorem registered_lookup {MaxVariables : Nat} (d : Device MaxVariables) (j : Nat) (v : Variable)
    (hj : j < d.num_variables) (hv : d.vars[j]? = some v) :
    d.registered[j]? = some (j, v) := by
  simp [Device.registered, List.getElem?_enum, List.getElem?_take, hj, hv]

theorem registered_index {MaxVariables : Nat} (c : Config MaxVariables) (k : Nat)
    (hreg : c.Registered k) : ∀ jv ∈ c.device.registered, jv.2.index = jv.1 := by
  intro jv hjv
  obtain ⟨n, hn⟩ := List.mem_iff_getElem?.mp hjv
  obtain ⟨hnv, _, _, hidx⟩ := hreg
  simp only [Device.registered, List.getElem?_enum, List.getElem?_take] at hn
  by_cases hlt : n < c.device.num_variables
  · rw [if_pos hlt] at hn
    obtain ⟨v, hv, hvi⟩ := hidx n (by omega)
    rw [hv] at hn
    simp only [Option.map_some', Option.some.injEq] at hn
    subst hn
    exact hvi
  · rw [if_neg hlt] at hn; cases hn

theorem registered_length {MaxVariables : Nat} (d : Device MaxVariables)
    (hlen : d.num_variables ≤ d.vars.length) : d.registered.length = d.num_variables := by
  simp [Device.registered, List.enum, List.length_take]; omega

/-- After 256 calls of `addVariable` on a newly constructed `Device<256>`. -/
theorem run_256 (junk : Nat → Nat) :
    ∃ c, (Config.start 256 junk).run (List.replicate 256 DeviceOp.addVariable) = .ok c ∧
      c.device.num_variables = 0 ∧ c.device.vars.length = 256 ∧
      ∀ j < 256, ∃ v, c.device.vars[j]? = some v ∧ v.index = j := by
  have hscope : ∀ n k, wellScoped k (List.replicate n DeviceOp.addVariable) = true := by
    intro n
    induction n with
    | zero => intro k; rfl
    | succ n ih => intro k; simp only [List.replicate_succ, wellScoped]; exact ih (k + 1)
  have hcount := countAdds_replicate 255
  obtain ⟨c1, hrun1, hreg1⟩ := registered_run (List.replicate 255 DeviceOp.addVariable)
    (Config.start 256 junk) 0 (start_registered 256 _) (hscope 255 0)
    (by rw [hcount]; decide) (by rw [hcount])
  rw [hcount] at hreg1
  obtain ⟨c2, hstep, hnv, _, hlen, hidx⟩ := registered_add c1 (0 + 255) hreg1 (by decide)
  have hsplit : List.replicate 256 DeviceOp.addVariable =
      List.replicate 255 DeviceOp.addVariable ++ [DeviceOp.addVariable] := by
    rw [← List.replicate_succ']
  refine ⟨c2, ?_, hnv, hlen, hidx⟩
  rw [hsplit, run_append _ _ _ c1 hrun1]
  simp only [Config.run, hstep]

/-! ## Members that were never set -/

/-- C17 as stated fails: on a `Device<256>`, after 256 calls of `addVariable` on the
newly constructed Device and no setter, the 256 registered Variables have quantity,
unit and sensor `ABSENT`, but the 8-bit counter holds 0 and `renderConfig` writes the
header map only: no channel map and no special value 0 for any key of any of these
Variables. -/
theorem unset_members_render_counterexample :
    countAdds (List.replicate 256 DeviceOp.addVariable) = 256 ∧
    ((Config.start 256 (fun _ => 0)).run (List.replicate 256 DeviceOp.addVariable)).toOption.map
      (fun c => (c.device.vars.map (fun v => (v.quantity, v.unit, v.sensor)),
        (c.device.renderConfig World.empty).toOption.map (fun w => w.cbor)))
      = some (List.replicate 256 (.ABSENT, .ABSENT, .ABSENT),
          some [.writeArray 1, .writeMap 2, .writeInt 5, .writeInt 1,
            .writeString (cstr "experimental"), .writeInt 1]) ∧
    ([.writeArray 1, .writeMap 2, .writeInt 5, .writeInt 1,
      .writeString (cstr "experimental"), .writeInt 1] : List WriterCall).count
        (.writeSpecial 0) = 0 := by
  refine ⟨countAdds_replicate 256, ?_, by decide⟩
  obtain ⟨c, hrun, hnv, hlen, _⟩ := run_256 (fun _ => 0)
  obtain ⟨w, hw, hc⟩ := renderConfig_ok c.device World.empty (by omega) (by omega)
  obtain ⟨_, hframe⟩ := run_frame _ (Config.start 256 (fun _ => 0)) c hrun
  have habs : ∀ (f : Field) (v : Variable), v ∈ c.device.vars → v.absentAt f := by
    intro f v hv
    obtain ⟨j, hj⟩ := List.mem_iff_getElem?.mp hv
    obtain ⟨v0, hv0, hab⟩ := hframe f j v hj (by
      intro op hop r hr
      rw [List.eq_of_mem_replicate hop] at hr
      cases f <;> cases hr)
    exact hab (fresh_absent 256 _ j v0 f hv0)
  have hmembers : c.device.vars.map (fun v => (v.quantity, v.unit, v.sensor)) =
      List.replicate 256 (.ABSENT, .ABSENT, .ABSENT) := by
    rw [List.eq_replicate_iff]
    refine ⟨by rw [List.length_map, hlen], ?_⟩
    intro b hb
    obtain ⟨v, hv, rfl⟩ := List.mem_map.mp hb
    have hq : v.quantity = .ABSENT := habs .quantity v hv
    have hu : v.unit = .ABSENT := habs .unit v hv
    have hs : v.sensor = .ABSENT := habs .sensor v hv
    rw [hq, hu, hs]
  have hcalls : w.cbor = [.writeArray 1, .writeMap 2, .writeInt 5, .writeInt 1,
      .writeString (cstr "experimental"), .writeInt 1] := by
    rw [hc]
    simp [Device.registered, hnv, headerCalls, World.empty]
  rw [hrun]
  simp only [Outcome.toOption, Option.map_some', hw, hmembers, hcalls]

/-- C17, amended: a member of a Variable that no statement of the program has set,
through any reference that designates the Variable, is `ABSENT` when the program
returns, whatever was set in the other members and in the other Variables; in
particular a registered Variable that was never configured has quantity, unit and
sensor `ABSENT`. When the program registers k Variables, with k within the capacity
and k <= 255, it returns and `renderConfig` then writes, in the map of channel j, the
special value 0 as the value of each of the keys 2, 3, 4 whose member was not set: the
value of each key in a channel map is the encoding of the member, which for `ABSENT`
is the special value 0. -/
theorem unset_members_absent (MaxVariables : Nat) (junk : Nat → Nat) (ops : List DeviceOp) :
    (∀ c, (Config.start MaxVariables junk).run ops = .ok c →
      ∀ (f : Field) (j : Nat) (v : Variable), c.device.vars[j]? = some v →
        (∀ op ∈ ops, ∀ r, op.setsField f = some r → c.refs[r]? ≠ some j) →
        v.absentAt f) ∧
    (wellScoped 0 ops = true → countAdds ops ≤ MaxVariables → countAdds ops ≤ 255 →
      ∃ c w items,
        (Config.start MaxVariables junk).run ops = .ok c ∧
        c.device.renderConfig World.empty = .ok w ∧
        readMessage w.cbor = some (.array items) ∧
        ∀ (f : Field) (j : Nat), j < countAdds ops →
          (∀ op ∈ ops, op.setsField f ≠ some j) →
          ∃ v item, c.device.vars[j]? = some v ∧ v.absentAt f ∧
            items[j + 1]? = some item ∧ item.valueAt f.key = some (.special 0)) ∧
    Field.key .quantity = 2 ∧ Field.key .unit = 3 ∧ Field.key .sensor = 4 ∧
    (∀ (i : Nat) (v : Variable) (w : World),
      (Device.renderChannel i v w).cbor = w.cbor ++
        ([.writeMap 5, .writeInt 5, .writeInt 2, .writeInt 1, .writeInt i, .writeInt 2]
          ++ v.quantity.encoding ++ [.writeInt 3] ++ v.unit.encoding ++ [.writeInt 4]
          ++ v.sensor.encoding)) ∧
    (Shortcut.ABSENT : Shortcut Quantity).encoding = [.writeSpecial 0] ∧
    (Shortcut.ABSENT : Shortcut Unit).encoding = [.writeSpecial 0] ∧
    (Shortcut.ABSENT : Shortcut Sensor).encoding = [.writeSpecial 0] ∧
    ((Config.start 1 (fun _ => 0)).run [.addVariable, .setUnit 0 (.NUM .Volt)]).toOption.map
        (fun c => (c.device.renderConfig World.empty).toOption.map (fun w => w.cbor)) =
      some (some [.writeArray 2,
        .writeMap 2, .writeInt 5, .writeInt 1, .writeString (cstr "experimental"), .writeInt 1,
        .writeMap 5, .writeInt 5, .writeInt 2, .writeInt 1, .writeInt 0,
          .writeInt 2, .writeSpecial 0, .writeInt 3, .writeInt 3,
          .writeInt 4, .writeSpecial 0]) := by
  have hsafe : ∀ c, (Config.start MaxVariables junk).run ops = .ok c →
      ∀ (f : Field) (j : Nat) (v : Variable), c.device.vars[j]? = some v →
        (∀ op ∈ ops, ∀ r, op.setsField f = some r → c.refs[r]? ≠ some j) →
        v.absentAt f := by
    intro c hrun f j v hv hfree
    obtain ⟨_, hframe⟩ := run_frame ops (Config.start MaxVariables junk) c hrun
    obtain ⟨v0, hv0, hab⟩ := hframe f j v hv hfree
    exact hab (fresh_absent MaxVariables junk j v0 f hv0)
  refine ⟨hsafe, ?_, rfl, rfl, rfl, renderChannel_cbor, rfl, rfl, rfl, by decide⟩
  intro hscope hcap h8
  obtain ⟨c, hrun, hreg⟩ := registered_run ops (Config.start MaxVariables junk) 0
    (start_registered _ _) hscope (by omega) (by omega)
  rw [Nat.zero_add] at hreg
  obtain ⟨hnv, hrefs, hlen, hidx⟩ := hreg
  have hle : c.device.num_variables ≤ c.device.vars.length := by omega
  obtain ⟨w, hw, hc⟩ := renderConfig_ok c.device World.empty (by omega) hle
  have hwc : w.cbor = .writeArray (c.device.num_variables + 1) :: headerCalls ++
      c.device.registered.flatMap (fun jv : Nat × Variable => channelCalls jv.1 jv.2) := by
    rw [hc]; rfl
  refine ⟨c, w, headerItem ::
    c.device.registered.map (fun jv : Nat × Variable => channelItem jv.1 jv.2), hrun, hw,
    by rw [hwc]; exact read_config c.device hle, ?_⟩
  intro f j hj hunset
  obtain ⟨v, hv, _⟩ := hidx j hj
  have hab : v.absentAt f := by
    apply hsafe c hrun f j v hv
    intro op hop r hr hcr
    rw [hrefs] at hcr
    have := range_lookup _ _ _ hcr
    subst this
    exact hunset op hop hr
  refine ⟨v, channelItem j v, hv, hab, ?_, ?_⟩
  · rw [List.getElem?_cons_succ, List.getElem?_map,
      registered_lookup c.device j v (by omega) hv]
    rfl
  · cases f with
    | quantity =>
        have hq : v.quantity = .ABSENT := hab
        simp [channelItem, Item.valueAt, Field.key, WireEnum.toLong, hq, Shortcut.item]
    | unit =>
        have hq : v.unit = .ABSENT := hab
        simp [channelItem, Item.valueAt, Field.key, WireEnum.toLong, hq, Shortcut.item]
    | sensor =>
        have hq : v.sensor = .ABSENT := hab
        simp [channelItem, Item.valueAt, Field.key, WireEnum.toLong, hq, Shortcut.item]

/-- C17 amended, at a program that registers one Variable and sets only its unit. -/
theorem unset_members_absent_witness :
    wellScoped 0 [.addVariable, .setUnit 0 (.NUM .Volt)] = true ∧
    countAdds [.addVariable, .setUnit 0 (.NUM .Volt)] ≤ 1 ∧
    countAdds [.addVariable, .setUnit 0 (.NUM .Volt)] ≤ 255 ∧
    ∃ c w items,
      (Config.start 1 (fun _ => 0)).run [.addVariable, .setUnit 0 (.NUM .Volt)] = .ok c ∧
      c.device.renderConfig World.empty = .ok w ∧
      readMessage w.cbor = some (.array items) ∧
      ∀ (f : Field) (j : Nat), j < countAdds [.addVariable, .setUnit 0 (.NUM .Volt)] →
        (∀ op ∈ [DeviceOp.addVariable, .setUnit 0 (.NUM .Volt)], op.setsField f ≠ some j) →
        ∃ v item, c.device.vars[j]? = some v ∧ v.absentAt f ∧
          items[j + 1]? = some item ∧ item.valueAt f.key = some (.special 0) :=
  ⟨by decide, by decide, by decide,
    (unset_members_absent 1 (fun _ => 0) [.addVariable, .setUnit 0 (.NUM .Volt)]).2.1
      (by decide) (by decide) (by decide)⟩

/-! ## Channel ids of the two messages -/

/-- C18 as stated fails: on a `Device<256>`, after 256 calls of `addVariable` (k = 256
<= N) the 8-bit counter holds 0, so that `renderConfig` writes no channel map at all,
while the 256 registered Variables hold the indices 0, ..., 255 that a Packet writes
as channel ids. -/
theorem channel_ids_wrap_counterexample :
    countAdds (List.replicate 256 DeviceOp.addVariable) = 256 ∧
    ((Config.start 256 (fun _ => 0)).run (List.replicate 256 DeviceOp.addVariable)).toOption.map
      (fun c => (c.device.num_variables, c.device.vars.map Variable.index,
        (c.device.renderConfig World.empty).toOption.map (fun w => w.cbor)))
      = some (0, List.range 256, some [.writeArray 1, .writeMap 2, .writeInt 5, .writeInt 1,
          .writeString (cstr "experimental"), .writeInt 1]) ∧
    channelIds (.array [headerItem]) = [] := by
  refine ⟨countAdds_replicate 256, ?_, rfl⟩
  obtain ⟨c, hrun, hnv, hlen, hidx⟩ := run_256 (fun _ => 0)
  obtain ⟨w, hw, hc⟩ := renderConfig_ok c.device World.empty (by omega) (by omega)
  have hidxs : c.device.vars.map Variable.index = List.range 256 := by
    apply List.ext_getElem?
    intro n
    rw [List.getElem?_map]
    by_cases hn : n < 256
    · obtain ⟨v, hv, hvi⟩ := hidx n hn
      rw [hv, List.getElem?_range hn, Option.map_some', hvi]
    · rw [List.getElem?_eq_none (by omega), List.getElem?_eq_none (by simp; omega)]
      rfl
  have hcalls : w.cbor = [.writeArray 1, .writeMap 2, .writeInt 5, .writeInt 1,
      .writeString (cstr "experimental"), .writeInt 1] := by
    rw [hc]
    simp [Device.registered, hnv, headerCalls, World.empty]
  rw [hrun]
  simp only [Outcome.toOption, Option.map_some', hw, hnv, hidxs, hcalls]

/-- C18, amended: for every `Device<N>` built from a newly constructed Device by a
program with k calls of `addVariable`, k <= N and k <= 255, and any setters, the
channel ids that `renderConfig` writes in its k channel maps, taken from the loop
counter, are the channel ids that a Packet writes when `addValue` is called once per
registered Variable in the order of registration, taken from the `index` members; both
sequences are 0, 1, ..., k-1, without repeats. -/
theorem channel_ids_agree (MaxVariables PacketSize : Nat) (junk : Nat → Nat)
    (ops : List DeviceOp) (value : Nat → Int)
    (hscope : wellScoped 0 ops = true) (hcap : countAdds ops ≤ MaxVariables)
    (h8 : countAdds ops ≤ 255) :
    ∃ c w config rest data,
      (Config.start MaxVariables junk).run ops = .ok c ∧
      c.device.renderConfig World.empty = .ok w ∧
      readMessage w.cbor = some config ∧
      ((Packet.new PacketSize World.empty).addValues (c.device.samples value)).out.cbor =
        .writeArray PacketSize :: rest ∧
      rest = (c.device.samples value).flatMap (fun s : Variable × Int =>
        [.writeMap 2, .writeInt 1, .writeInt s.1.index, .writeInt 2, .writeInt s.2]) ∧
      (c.device.samples value).map (fun s => s.1) = c.device.vars.take (countAdds ops) ∧
      readMessage (.writeArray (countAdds ops) :: rest) = some data ∧
      channelIds config = (List.range (countAdds ops)).map Int.ofNat ∧
      channelIds data = (List.range (countAdds ops)).map Int.ofNat ∧
      channelIds config = channelIds data ∧
      (channelIds config).Nodup := by
  obtain ⟨c, hrun, hreg⟩ := registered_run ops (Config.start MaxVariables junk) 0
    (start_registered _ _) hscope (by omega) (by omega)
  rw [Nat.zero_add] at hreg
  have hindex := registered_index c _ hreg
  obtain ⟨hnv, hrefs, hlen, hidx⟩ := hreg
  have hle : c.device.num_variables ≤ c.device.vars.length := by omega
  have hrl := registered_length c.device hle
  obtain ⟨w, hw, hc⟩ := renderConfig_ok c.device World.empty (by omega) hle
  have hwc : w.cbor = .writeArray (c.device.num_variables + 1) :: headerCalls ++
      c.device.registered.flatMap (fun jv : Nat × Variable => channelCalls jv.1 jv.2) := by
    rw [hc]; rfl
  have hfst : c.device.registered.map Prod.fst = List.range (countAdds ops) := by
    have h := List.enum_map_fst (c.device.vars.take c.device.num_variables)
    rw [List.length_take, Nat.min_eq_left hle] at h
    rw [← hnv]
    exact h
  have hsl : (c.device.samples value).length = countAdds ops := by
    simp [Device.samples, hrl, hnv]
  have hcfg : channelIds (.array (headerItem ::
      c.device.registered.map (fun jv : Nat × Variable => channelItem jv.1 jv.2))) =
      (List.range (countAdds ops)).map Int.ofNat := by
    have hhead : Item.intAt 1 headerItem = none := by
      simp [Item.intAt, Item.valueAt, headerItem]
    have hchan : ∀ jv : Nat × Variable,
        Item.intAt 1 (channelItem jv.1 jv.2) = some (Int.ofNat jv.1) := by
      intro jv; simp [Item.intAt, Item.valueAt, channelItem]
    simp only [channelIds, List.filterMap_cons, hhead, List.filterMap_map]
    rw [← hfst, List.map_map]
    rw [show (Item.intAt 1 ∘ fun jv : Nat × Variable => channelItem jv.1 jv.2) =
      (some ∘ (Int.ofNat ∘ Prod.fst)) from funext hchan, List.filterMap_eq_map]
  have hdat : channelIds (.array ((c.device.samples value).map sampleItem)) =
      (List.range (countAdds ops)).map Int.ofNat := by
    have hsamp : ∀ s : Variable × Int, Item.intAt 1 (sampleItem s) = some (Int.ofNat s.1.index) := by
      intro s; simp [Item.intAt, Item.valueAt, sampleItem]
    simp only [channelIds, List.filterMap_map]
    rw [show (Item.intAt 1 ∘ sampleItem) =
      (some ∘ (fun s : Variable × Int => Int.ofNat s.1.index)) from funext hsamp,
      List.filterMap_eq_map, ← hfst, Device.samples, List.map_map, List.map_map]
    apply List.map_congr_left
    intro jv hjv
    simp [hindex jv hjv]
  refine ⟨c, w, _, (c.device.samples value).flatMap sampleCalls, _, hrun, hw,
    by rw [hwc]; exact read_config c.device hle, ?_, rfl, ?_, ?_, hcfg, hdat,
    by rw [hcfg, hdat], ?_⟩
  · have h := packet_cbor PacketSize World.empty (c.device.samples value)
    simpa [World.empty] using h
  · rw [Device.samples, List.map_map]
    have : ((fun s : Variable × Int => s.1) ∘ fun jv : Nat × Variable => (jv.2, value jv.1))
        = Prod.snd := rfl
    rw [this, ← hnv]
    simp [Device.registered, List.enum_map_snd]
  · rw [← hsl]
    exact read_array sampleCalls sampleItem read_sample (c.device.samples value)
  · rw [hcfg]
    exact List.Nodup.map (fun a b h => Int.ofNat.inj h) (List.nodup_range _)

/-- C18 amended, at the program of scenario A with the values of scenario B. -/
theorem channel_ids_agree_witness :
    wellScoped 0 scenarioAProgram = true ∧ countAdds scenarioAProgram ≤ 2 ∧
    countAdds scenarioAProgram ≤ 255 ∧
    ∃ c w config rest data,
      (Config.start 2 (fun _ => 0)).run scenarioAProgram = .ok c ∧
      c.device.renderConfig World.empty = .ok w ∧
      readMessage w.cbor = some config ∧
      ((Packet.new 2 World.empty).addValues
          (c.device.samples (fun j => if j = 0 then 215 else 42))).out.cbor =
        .writeArray 2 :: rest ∧
      rest = (c.device.samples (fun j => if j = 0 then 215 else 42)).flatMap
        (fun s : Variable × Int =>
          [.writeMap 2, .writeInt 1, .writeInt s.1.index, .writeInt 2, .writeInt s.2]) ∧
      (c.device.samples (fun j => if j = 0 then 215 else 42)).map (fun s => s.1) =
        c.device.vars.take (countAdds scenarioAProgram) ∧
      readMessage (.writeArray (countAdds scenarioAProgram) :: rest) = some data ∧
      channelIds config = (List.range (countAdds scenarioAProgram)).map Int.ofNat ∧
      channelIds data = (List.range (countAdds scenarioAProgram)).map Int.ofNat ∧
      channelIds config = channelIds data ∧
      (channelIds config).Nodup :=
  ⟨by decide, by decide, by decide,
    channel_ids_agree 2 2 (fun _ => 0) scenarioAProgram (fun j => if j = 0 then 215 else 42)
      (by decide) (by decide) (by decide)⟩

end Mjs
